import Mathlib

/-!
Verification of the haink product master-code system.

Shallow embedding conventions:
* A JavaScript string is modelled as its sequence of code points, `List Nat`.
* A JavaScript runtime value (the `unknown` cells coming out of the Excel
  reader) is modelled by the inductive `JsValue`; a JavaScript number is a
  `JsNum` (an exact rational for finite values, plus NaN and the infinities).
* Uppercasing is modelled by the simple per-code-point case mapping on the
  ASCII range (the repository only ever canonicalizes ids and option labels).
-/

namespace Haink

/-- Code points of a Lean string literal, used to write concrete examples. -/
def codes (s : String) : List Nat := s.data.map Char.toNat

/-- The JavaScript `\s` / `String.prototype.trim` whitespace class:
TAB, LF, VT, FF, CR, SP, NBSP, OGHAM, the U+2000–U+200A range, LS, PS,
NNBSP, MMSP, IDSP and the BOM. -/
def isWs (c : Nat) : Bool :=
  decide (c = 9 ∨ c = 10 ∨ c = 11 ∨ c = 12 ∨ c = 13 ∨ c = 32 ∨ c = 160 ∨
    c = 5760 ∨ (8192 ≤ c ∧ c ≤ 8202) ∨ c = 8232 ∨ c = 8233 ∨ c = 8239 ∨
    c = 8287 ∨ c = 12288 ∨ c = 65279)

/-- `value.replace(/\s+/g, ' ')` (from `src/lib/canonicalize.ts`):
every maximal run of whitespace becomes a single space.  The flag records
whether the previously consumed character was whitespace. -/
def collapseWsAux : Bool → List Nat → List Nat
  | _, [] => []
  | prevWs, c :: rest =>
    if isWs c then
      if prevWs then collapseWsAux true rest else 32 :: collapseWsAux true rest
    else c :: collapseWsAux false rest

def collapseWs (l : List Nat) : List Nat := collapseWsAux false l

/-- Drop trailing whitespace (the right half of `String.prototype.trim`). -/
def dropTrailingWs : List Nat → List Nat
  | [] => []
  | c :: rest =>
    let r := dropTrailingWs rest
    if r.isEmpty && isWs c then [] else c :: r

/-- `String.prototype.trim`. -/
def trimWs (l : List Nat) : List Nat := dropTrailingWs (l.dropWhile isWs)

/-- `normalizeWhitespace` from `src/lib/canonicalize.ts`:
`value.replace(/\s+/g, ' ').trim()`. -/
def normalizeWhitespace (l : List Nat) : List Nat := trimWs (collapseWs l)

/-- Per-code-point uppercasing (simple case mapping, ASCII range). -/
def jsToUpper (c : Nat) : Nat := if 97 ≤ c ∧ c ≤ 122 then c - 32 else c

/-- `String.prototype.toUpperCase`, per code point. -/
def jsToUpperStr (l : List Nat) : List Nat := l.map jsToUpper

/-- `canonicalizeOptionValue` from `src/lib/canonicalize.ts`:
`normalizeWhitespace(value).toUpperCase()`. -/
def canonicalizeOptionValue (l : List Nat) : List Nat :=
  jsToUpperStr (normalizeWhitespace l)

/-! Invariants describing fully normalized strings. -/

/-- Every whitespace code point is the plain space 32. -/
def wsAll32 (l : List Nat) : Bool := l.all fun c => !isWs c || c == 32

/-- No two adjacent whitespace code points. -/
def noWsPair : List Nat → Bool
  | a :: b :: t => !(isWs a && isWs b) && noWsPair (b :: t)
  | _ => true

/-- The first code point, if any, is not whitespace. -/
def headNotWs : List Nat → Bool
  | [] => true
  | c :: _ => !isWs c

/-- The last code point, if any, is not whitespace. -/
def lastNotWs : List Nat → Bool
  | [] => true
  | [c] => !isWs c
  | _ :: b :: t => lastNotWs (b :: t)

theorem jsToUpper_of_isWs {c : Nat} (h : isWs c = true) : jsToUpper c = c := by
  simp only [isWs, decide_eq_true_eq] at h
  unfold jsToUpper
  split
  · omega
  · rfl

theorem isWs_jsToUpper (c : Nat) : isWs (jsToUpper c) = isWs c := by
  unfold jsToUpper
  split
  · next hc =>
    have h1 : isWs (c - 32) = false := by
      simp only [isWs, decide_eq_false_iff_not]
      omega
    have h2 : isWs c = false := by
      simp only [isWs, decide_eq_false_iff_not]
      omega
    rw [h1, h2]
  · rfl

theorem jsToUpper_jsToUpper (c : Nat) : jsToUpper (jsToUpper c) = jsToUpper c := by
  unfold jsToUpper
  split
  · next hc =>
    have : ¬(97 ≤ c - 32 ∧ c - 32 ≤ 122) := by omega
    rw [if_neg this]
  · rfl

theorem jsToUpperStr_jsToUpperStr (l : List Nat) :
    jsToUpperStr (jsToUpperStr l) = jsToUpperStr l := by
  unfold jsToUpperStr
  rw [List.map_map]
  exact List.map_congr_left fun a _ => jsToUpper_jsToUpper a

/-! Lemmas about `collapseWs`. -/

theorem wsAll32_collapseWsAux (b : Bool) (l : List Nat) :
    wsAll32 (collapseWsAux b l) = true := by
  induction l generalizing b with
  | nil => rfl
  | cons c rest ih =>
    unfold collapseWsAux
    by_cases hc : isWs c
    · simp only [hc, if_true]
      cases b with
      | true => simpa using ih true
      | false => simpa [wsAll32] using ih true
    · simpa [wsAll32, hc] using ih false

theorem headNotWs_collapseWsAux_true (l : List Nat) :
    headNotWs (collapseWsAux true l) = true := by
  induction l with
  | nil => rfl
  | cons c rest ih =>
    unfold collapseWsAux
    by_cases hc : isWs c
    · simpa [hc] using ih
    · simp [hc, headNotWs]

theorem noWsPair_collapseWsAux (b : Bool) (l : List Nat) :
    noWsPair (collapseWsAux b l) = true := by
  induction l generalizing b with
  | nil => rfl
  | cons c rest ih =>
    unfold collapseWsAux
    by_cases hc : isWs c
    · simp only [hc, if_true]
      cases b with
      | true => exact ih true
      | false =>
        have hhead := headNotWs_collapseWsAux_true rest
        have htail := ih true
        cases hrec : collapseWsAux true rest with
        | nil => rfl
        | cons d t =>
          rw [hrec] at hhead htail
          have hd : isWs d = false := by simpa [headNotWs] using hhead
          simp [noWsPair, hd, htail]
    · have htail := ih false
      cases hrec : collapseWsAux false rest with
      | nil => simp [hc, hrec, noWsPair]
      | cons d t =>
        rw [hrec] at htail
        simp [hc, hrec, noWsPair, htail]

/-- A string whose whitespace is all plain spaces with no two adjacent is a
fixed point of `collapseWsAux`; with the `true` flag this additionally needs
a non-whitespace head. -/
theorem collapseWsAux_fix (l : List Nat) (h32 : wsAll32 l = true)
    (hnp : noWsPair l = true) :
    collapseWsAux false l = l ∧
      (headNotWs l = true → collapseWsAux true l = l) := by
  induction l with
  | nil => exact ⟨rfl, fun _ => rfl⟩
  | cons c rest ih =>
    have h32c : (!isWs c || c == 32) = true := by
      have := h32
      simp only [wsAll32, List.all_cons, Bool.and_eq_true] at this
      exact this.1
    have h32r : wsAll32 rest = true := by
      simp only [wsAll32, List.all_cons, Bool.and_eq_true] at h32
      exact h32.2
    have hnpr : noWsPair rest = true := by
      cases rest with
      | nil => rfl
      | cons d t =>
        simp only [noWsPair, Bool.and_eq_true] at hnp
        exact hnp.2
    have ih' := ih h32r hnpr
    by_cases hc : isWs c
    · have hc32 : c = 32 := by
        simp only [hc, Bool.not_true, Bool.false_or, beq_iff_eq] at h32c
        exact h32c
      have hheadr : headNotWs rest = true := by
        cases rest with
        | nil => rfl
        | cons d t =>
          simp only [noWsPair, Bool.and_eq_true] at hnp
          have := hnp.1
          simp only [hc, Bool.true_and] at this
          simpa [headNotWs] using this
      constructor
      · have hstep : collapseWsAux false (c :: rest) = 32 :: collapseWsAux true rest := by
          simp [collapseWsAux, hc]
        rw [hstep, ih'.2 hheadr, hc32]
      · intro hh
        simp [headNotWs, hc] at hh
    · constructor
      · have hstep : collapseWsAux false (c :: rest) = c :: collapseWsAux false rest := by
          simp [collapseWsAux, hc]
        rw [hstep, ih'.1]
      · intro _
        have hstep : collapseWsAux true (c :: rest) = c :: collapseWsAux false rest := by
          simp [collapseWsAux, hc]
        rw [hstep, ih'.1]

/-! Lemmas about trimming. -/

theorem headNotWs_dropWhile (l : List Nat) :
    headNotWs (l.dropWhile isWs) = true := by
  induction l with
  | nil => rfl
  | cons c rest ih =>
    by_cases hc : isWs c
    · simpa [List.dropWhile, hc] using ih
    · simp [List.dropWhile, hc, headNotWs]

theorem lastNotWs_dropTrailingWs (l : List Nat) :
    lastNotWs (dropTrailingWs l) = true := by
  induction l with
  | nil => rfl
  | cons c rest ih =>
    show lastNotWs (if (dropTrailingWs rest).isEmpty && isWs c then []
      else c :: dropTrailingWs rest) = true
    by_cases hcond : ((dropTrailingWs rest).isEmpty && isWs c) = true
    · simp [hcond, lastNotWs]
    · rw [if_neg (by simpa using hcond)]
      cases hr : dropTrailingWs rest with
      | nil =>
        have hc : isWs c = false := by
          rw [hr] at hcond
          simpa using hcond
        simp [lastNotWs, hc]
      | cons d t =>
        rw [hr] at ih
        simpa [lastNotWs] using ih

theorem headNotWs_dropTrailingWs (l : List Nat) (h : headNotWs l = true) :
    headNotWs (dropTrailingWs l) = true := by
  cases l with
  | nil => rfl
  | cons c rest =>
    show headNotWs (if (dropTrailingWs rest).isEmpty && isWs c then []
      else c :: dropTrailingWs rest) = true
    by_cases hcond : ((dropTrailingWs rest).isEmpty && isWs c) = true
    · simp [hcond, headNotWs]
    · rw [if_neg (by simpa using hcond)]
      simpa [headNotWs] using h

theorem wsAll32_dropWhile (l : List Nat) (h : wsAll32 l = true) :
    wsAll32 (l.dropWhile isWs) = true := by
  simp only [wsAll32, List.all_eq_true] at h ⊢
  intro c hc
  exact h c ((List.dropWhile_suffix isWs).sublist.mem hc)

theorem dropTrailingWs_sublist (l : List Nat) : (dropTrailingWs l).Sublist l := by
  induction l with
  | nil => simp [dropTrailingWs]
  | cons c rest ih =>
    show (if (dropTrailingWs rest).isEmpty && isWs c then []
      else c :: dropTrailingWs rest).Sublist (c :: rest)
    by_cases hcond : ((dropTrailingWs rest).isEmpty && isWs c) = true
    · simp [hcond]
    · rw [if_neg (by simpa using hcond)]
      exact List.Sublist.cons₂ c ih

theorem wsAll32_dropTrailingWs (l : List Nat) (h : wsAll32 l = true) :
    wsAll32 (dropTrailingWs l) = true := by
  simp only [wsAll32, List.all_eq_true] at h ⊢
  intro c hc
  exact h c ((dropTrailingWs_sublist l).mem hc)

theorem noWsPair_tail {c : Nat} {rest : List Nat}
    (h : noWsPair (c :: rest) = true) : noWsPair rest = true := by
  cases rest with
  | nil => rfl
  | cons d t =>
    simp only [noWsPair, Bool.and_eq_true] at h
    exact h.2

theorem noWsPair_dropWhile (l : List Nat) (h : noWsPair l = true) :
    noWsPair (l.dropWhile isWs) = true := by
  induction l with
  | nil => exact h
  | cons c rest ih =>
    by_cases hc : isWs c
    · simpa [List.dropWhile, hc] using ih (noWsPair_tail h)
    · simpa [List.dropWhile, hc] using h

theorem noWsPair_dropTrailingWs (l : List Nat) (h : noWsPair l = true) :
    noWsPair (dropTrailingWs l) = true := by
  induction l with
  | nil => exact h
  | cons c rest ih =>
    show noWsPair (if (dropTrailingWs rest).isEmpty && isWs c then []
      else c :: dropTrailingWs rest) = true
    by_cases hcond : ((dropTrailingWs rest).isEmpty && isWs c) = true
    · simp [hcond, noWsPair]
    · rw [if_neg (by simpa using hcond)]
      have ihr := ih (noWsPair_tail h)
      cases hr : dropTrailingWs rest with
      | nil => simp [noWsPair]
      | cons d t =>
        rw [hr] at ihr
        have hd : isWs c = false ∨ isWs d = false := by
          cases rest with
          | nil => simp [dropTrailingWs] at hr
          | cons e t' =>
            by_cases hcw : isWs c
            · right
              have hmem : d ∈ dropTrailingWs (e :: t') := by rw [hr]; exact List.mem_cons_self d t
              -- d is the head of dropTrailingWs rest; the head of rest is e
              -- and noWsPair (c :: e :: t') gives ¬(isWs c ∧ isWs e).
              have hhead : headNotWs (e :: t') = true ∨ isWs e = false := by
                right
                simp only [noWsPair, Bool.and_eq_true] at h
                have := h.1
                simp only [hcw, Bool.true_and] at this
                simpa using this
              -- head of dropTrailingWs (e :: t') is e when nonempty
              have : d = e := by
                revert hr
                show dropTrailingWs (e :: t') = d :: t → d = e
                intro hr
                rw [show dropTrailingWs (e :: t') = (if (dropTrailingWs t').isEmpty && isWs e then []
                  else e :: dropTrailingWs t') from rfl] at hr
                by_cases hce : ((dropTrailingWs t').isEmpty && isWs e) = true
                · rw [if_pos hce] at hr; cases hr
                · rw [if_neg (by simpa using hce)] at hr
                  exact (List.cons_eq_cons.mp hr).1.symm
              rcases hhead with h1 | h1
              · simp only [headNotWs] at h1
                rw [this]
                simpa using h1
              · rw [this]; exact h1
            · left; simpa using hcw
        rcases hd with h1 | h1 <;> simp [noWsPair, h1, ihr]

theorem dropWhile_isWs_fix (l : List Nat) (h : headNotWs l = true) :
    l.dropWhile isWs = l := by
  cases l with
  | nil => rfl
  | cons c rest =>
    simp only [headNotWs] at h
    simp [List.dropWhile, show isWs c = false by simpa using h]

theorem dropTrailingWs_fix (l : List Nat) (h : lastNotWs l = true) :
    dropTrailingWs l = l := by
  induction l with
  | nil => rfl
  | cons c rest ih =>
    show (if (dropTrailingWs rest).isEmpty && isWs c then []
      else c :: dropTrailingWs rest) = c :: rest
    cases rest with
    | nil =>
      simp only [lastNotWs] at h
      simp [dropTrailingWs, show isWs c = false by simpa using h]
    | cons d t =>
      have hrest : lastNotWs (d :: t) = true := by
        simpa [lastNotWs] using h
      rw [ih hrest]
      simp

theorem trimWs_fix (l : List Nat) (h1 : headNotWs l = true)
    (h2 : lastNotWs l = true) : trimWs l = l := by
  unfold trimWs
  rw [dropWhile_isWs_fix l h1, dropTrailingWs_fix l h2]

/-! The four invariants hold of every `normalizeWhitespace` output. -/

theorem wsAll32_normalizeWhitespace (l : List Nat) :
    wsAll32 (normalizeWhitespace l) = true :=
  wsAll32_dropTrailingWs _ (wsAll32_dropWhile _ (wsAll32_collapseWsAux false l))

theorem noWsPair_normalizeWhitespace (l : List Nat) :
    noWsPair (normalizeWhitespace l) = true :=
  noWsPair_dropTrailingWs _ (noWsPair_dropWhile _ (noWsPair_collapseWsAux false l))

theorem headNotWs_normalizeWhitespace (l : List Nat) :
    headNotWs (normalizeWhitespace l) = true :=
  headNotWs_dropTrailingWs _ (headNotWs_dropWhile _)

theorem lastNotWs_normalizeWhitespace (l : List Nat) :
    lastNotWs (normalizeWhitespace l) = true :=
  lastNotWs_dropTrailingWs _

/-- A string satisfying all four invariants is a `normalizeWhitespace`
fixed point. -/
theorem normalizeWhitespace_fix (l : List Nat) (h32 : wsAll32 l = true)
    (hnp : noWsPair l = true) (hh : headNotWs l = true)
    (hl : lastNotWs l = true) : normalizeWhitespace l = l := by
  unfold normalizeWhitespace collapseWs
  rw [(collapseWsAux_fix l h32 hnp).1, trimWs_fix l hh hl]

/-! Uppercasing preserves the four invariants. -/

theorem wsAll32_jsToUpperStr (l : List Nat) (h : wsAll32 l = true) :
    wsAll32 (jsToUpperStr l) = true := by
  simp only [wsAll32, jsToUpperStr, List.all_eq_true] at h ⊢
  intro c hc
  rcases List.mem_map.mp hc with ⟨a, ha, rfl⟩
  have := h a ha
  by_cases hws : isWs a
  · rw [jsToUpper_of_isWs hws]
    exact this
  · simp [isWs_jsToUpper, hws]

theorem noWsPair_jsToUpperStr (l : List Nat) (h : noWsPair l = true) :
    noWsPair (jsToUpperStr l) = true := by
  induction l with
  | nil => rfl
  | cons a rest ih =>
    cases rest with
    | nil => rfl
    | cons b t =>
      simp only [noWsPair, Bool.and_eq_true] at h
      have ihr := ih h.2
      simp only [jsToUpperStr, List.map_cons] at ihr ⊢
      simp only [noWsPair, Bool.and_eq_true]
      refine ⟨?_, ihr⟩
      rw [isWs_jsToUpper, isWs_jsToUpper]
      exact h.1

theorem headNotWs_jsToUpperStr (l : List Nat) (h : headNotWs l = true) :
    headNotWs (jsToUpperStr l) = true := by
  cases l with
  | nil => rfl
  | cons c rest =>
    simp only [jsToUpperStr, List.map_cons, headNotWs, isWs_jsToUpper]
    simpa [headNotWs] using h

theorem lastNotWs_jsToUpperStr (l : List Nat) (h : lastNotWs l = true) :
    lastNotWs (jsToUpperStr l) = true := by
  induction l with
  | nil => rfl
  | cons c rest ih =>
    cases rest with
    | nil =>
      simp only [jsToUpperStr, List.map_cons, List.map_nil, lastNotWs, isWs_jsToUpper]
      simpa [lastNotWs] using h
    | cons d t =>
      have hrest : lastNotWs (d :: t) = true := by simpa [lastNotWs] using h
      have := ih hrest
      simpa [jsToUpperStr, lastNotWs] using this

theorem normalizeWhitespace_jsToUpperStr_normalizeWhitespace (l : List Nat) :
    normalizeWhitespace (jsToUpperStr (normalizeWhitespace l)) =
      jsToUpperStr (normalizeWhitespace l) :=
  normalizeWhitespace_fix _
    (wsAll32_jsToUpperStr _ (wsAll32_normalizeWhitespace l))
    (noWsPair_jsToUpperStr _ (noWsPair_normalizeWhitespace l))
    (headNotWs_jsToUpperStr _ (headNotWs_normalizeWhitespace l))
    (lastNotWs_jsToUpperStr _ (lastNotWs_normalizeWhitespace l))

/-- C9: `canonicalizeOptionValue` equals uppercasing composed with
`normalizeWhitespace` and is idempotent; applying it twice equals applying it
once, and on the example `"  Ka ri na  ver.1 "` it yields
`"KA RI NA VER.1"`. -/
theorem canonicalizeOptionValue_idempotent :
    (∀ l : List Nat,
        canonicalizeOptionValue l = jsToUpperStr (normalizeWhitespace l)) ∧
    (∀ l : List Nat,
        canonicalizeOptionValue (canonicalizeOptionValue l) =
          canonicalizeOptionValue l) ∧
    canonicalizeOptionValue (codes "  Ka ri na  ver.1 ") =
      codes "KA RI NA VER.1" := by
  refine ⟨fun l => rfl, fun l => ?_, by decide⟩
  show jsToUpperStr (normalizeWhitespace (jsToUpperStr (normalizeWhitespace l))) =
    jsToUpperStr (normalizeWhitespace l)
  rw [normalizeWhitespace_jsToUpperStr_normalizeWhitespace,
    jsToUpperStr_jsToUpperStr]

/-- Whitespace normalization is idempotent. -/
theorem normalizeWhitespace_normalizeWhitespace (l : List Nat) :
    normalizeWhitespace (normalizeWhitespace l) = normalizeWhitespace l :=
  normalizeWhitespace_fix _ (wsAll32_normalizeWhitespace l)
    (noWsPair_normalizeWhitespace l) (headNotWs_normalizeWhitespace l)
    (lastNotWs_normalizeWhitespace l)

/-- `dedupePreserveOrder` from `src/lib/canonicalize.ts`, with the `Set` of
already-seen values made explicit as a list. -/
def dedupeAux {α : Type} [DecidableEq α] (seen : List α) : List α → List α
  | [] => []
  | v :: rest =>
    if v ∈ seen then dedupeAux seen rest else v :: dedupeAux (v :: seen) rest

def dedupePreserveOrder {α : Type} [DecidableEq α] (values : List α) : List α :=
  dedupeAux [] values

theorem mem_dedupeAux {α : Type} [DecidableEq α] (seen : List α) (l : List α)
    (x : α) : x ∈ dedupeAux seen l ↔ x ∈ l ∧ x ∉ seen := by
  induction l generalizing seen with
  | nil => simp [dedupeAux]
  | cons v rest ih =>
    by_cases hv : v ∈ seen
    · rw [show dedupeAux seen (v :: rest) = dedupeAux seen rest by
        simp [dedupeAux, hv]]
      rw [ih]
      constructor
      · rintro ⟨h1, h2⟩
        exact ⟨List.mem_cons_of_mem v h1, h2⟩
      · rintro ⟨h1, h2⟩
        rcases List.mem_cons.mp h1 with rfl | h1
        · exact absurd hv h2
        · exact ⟨h1, h2⟩
    · rw [show dedupeAux seen (v :: rest) = v :: dedupeAux (v :: seen) rest by
        simp [dedupeAux, hv]]
      constructor
      · intro hx
        rcases List.mem_cons.mp hx with rfl | hx
        · exact ⟨List.mem_cons_self x rest, hv⟩
        · obtain ⟨h1, h2⟩ := (ih (v :: seen)).mp hx
          exact ⟨List.mem_cons_of_mem v h1,
            fun hs => h2 (List.mem_cons_of_mem v hs)⟩
      · rintro ⟨h1, h2⟩
        rcases List.mem_cons.mp h1 with rfl | h1
        · exact List.mem_cons_self x _
        · by_cases hx : x = v
          · subst hx
            exact List.mem_cons_self x _
          · refine List.mem_cons_of_mem v ((ih (v :: seen)).mpr ⟨h1, ?_⟩)
            intro hs
            rcases List.mem_cons.mp hs with h | h
            · exact hx h
            · exact h2 h

theorem dedupeAux_sublist {α : Type} [DecidableEq α] (seen : List α)
    (l : List α) : (dedupeAux seen l).Sublist l := by
  induction l generalizing seen with
  | nil => simp [dedupeAux]
  | cons v rest ih =>
    by_cases hv : v ∈ seen
    · rw [show dedupeAux seen (v :: rest) = dedupeAux seen rest by
        simp [dedupeAux, hv]]
      exact (ih seen).cons v
    · rw [show dedupeAux seen (v :: rest) = v :: dedupeAux (v :: seen) rest by
        simp [dedupeAux, hv]]
      exact (ih (v :: seen)).cons₂ v

theorem nodup_dedupeAux {α : Type} [DecidableEq α] (seen : List α)
    (l : List α) : (dedupeAux seen l).Nodup := by
  induction l generalizing seen with
  | nil => simp [dedupeAux]
  | cons v rest ih =>
    by_cases hv : v ∈ seen
    · rw [show dedupeAux seen (v :: rest) = dedupeAux seen rest by
        simp [dedupeAux, hv]]
      exact ih seen
    · rw [show dedupeAux seen (v :: rest) = v :: dedupeAux (v :: seen) rest by
        simp [dedupeAux, hv]]
      refine List.Nodup.cons ?_ (ih (v :: seen))
      intro hmem
      exact ((mem_dedupeAux _ _ _).mp hmem).2 (List.mem_cons_self v seen)

/-- An exact fraction (numerator, denominator), the value carried by a
finite JavaScript number.  Kept unnormalized; all observations go through
`jsTrunc`, `Frac.isInt` or cross-multiplication, never through
representation equality. -/
structure Frac where
  num : Int
  den : Nat
deriving DecidableEq

/-- A JavaScript number: an exact fraction for finite values, plus NaN and
the two infinities. -/
inductive JsNum where
  | finite : Frac → JsNum
  | nan : JsNum
  | inf : JsNum
  | negInf : JsNum
deriving DecidableEq

/-- A JavaScript runtime value as it can appear in an Excel cell or an
`unknown`-typed argument. -/
inductive JsValue where
  | str : List Nat → JsValue
  | num : JsNum → JsValue
  | nullv : JsValue
  | undef : JsValue
  | boolv : Bool → JsValue
  | obj : JsValue
deriving DecidableEq

/-- Decidable equality for `Except`, needed to evaluate concrete examples. -/
instance decEqExcept {e a : Type} [DecidableEq e] [DecidableEq a] :
    DecidableEq (Except e a) := fun x y =>
  match x, y with
  | .error u, .error v =>
    if h : u = v then isTrue (by rw [h])
    else isFalse (by intro hc; cases hc; exact h rfl)
  | .error _, .ok _ => isFalse (by intro hc; cases hc)
  | .ok _, .error _ => isFalse (by intro hc; cases hc)
  | .ok u, .ok v =>
    if h : u = v then isTrue (by rw [h])
    else isFalse (by intro hc; cases hc; exact h rfl)

inductive CategoryParseError where
  | notString : CategoryParseError
  | noValidItems : CategoryParseError
deriving DecidableEq

/-- `parseCategoryIds` from `src/lib/categories.ts`: reject non-strings,
split on commas (code point 44), normalize each token, drop empties, dedupe
preserving order, and reject an empty result. -/
def parseCategoryIds (raw : JsValue) : Except CategoryParseError (List (List Nat)) :=
  match raw with
  | .str s =>
    let parts := ((s.splitOn 44).map normalizeWhitespace).filter fun p => !p.isEmpty
    let deduped := dedupePreserveOrder parts
    if deduped.isEmpty then .error .noValidItems else .ok deduped
  | _ => .error .notString

/-- The comma-split, normalized, non-empty tokens of a raw category string. -/
def categoryTokens (s : List Nat) : List (List Nat) :=
  ((s.splitOn 44).map normalizeWhitespace).filter fun p => !p.isEmpty

theorem parseCategoryIds_str (s : List Nat) :
    parseCategoryIds (JsValue.str s) =
      if (dedupePreserveOrder (categoryTokens s)).isEmpty then
        (.error CategoryParseError.noValidItems :
          Except CategoryParseError (List (List Nat)))
      else .ok (dedupePreserveOrder (categoryTokens s)) := rfl

theorem mem_dedupePreserveOrder {α : Type} [DecidableEq α] (l : List α)
    (x : α) : x ∈ dedupePreserveOrder l ↔ x ∈ l := by
  rw [dedupePreserveOrder, mem_dedupeAux]
  simp

theorem dedupePreserveOrder_eq_nil_iff {α : Type} [DecidableEq α]
    (l : List α) : dedupePreserveOrder l = [] ↔ l = [] := by
  constructor
  · intro h
    refine List.eq_nil_iff_forall_not_mem.mpr fun x hx => ?_
    have := (mem_dedupePreserveOrder l x).mpr hx
    rw [h] at this
    exact List.not_mem_nil x this
  · intro h
    refine List.eq_nil_iff_forall_not_mem.mpr fun x hx => ?_
    have := (mem_dedupePreserveOrder l x).mp hx
    rw [h] at this
    exact List.not_mem_nil x this

theorem categoryTokens_eq_nil_iff (s : List Nat) :
    categoryTokens s = [] ↔ ∀ t ∈ s.splitOn 44, normalizeWhitespace t = [] := by
  rw [categoryTokens, List.filter_eq_nil_iff]
  constructor
  · intro h t ht
    have := h (normalizeWhitespace t) (List.mem_map_of_mem _ ht)
    simpa using this
  · intro h x hx
    rcases List.mem_map.mp hx with ⟨t, ht, rfl⟩
    simp [h t ht]

/-- C6: `parseCategoryIds` rejects non-strings, rejects strings whose
comma-tokens all normalize to the empty string, and otherwise returns a
non-empty, order-preserving, first-occurrence-deduped list of
whitespace-normalized non-empty ids; on the example
`" CATE9 , CATE44, CATE9 ,CATE55 "` it returns
`["CATE9", "CATE44", "CATE55"]`. -/
theorem parseCategoryIds_spec :
    (∀ v : JsValue, (∀ s, v ≠ JsValue.str s) →
      parseCategoryIds v = .error CategoryParseError.notString) ∧
    (∀ s : List Nat,
      (parseCategoryIds (JsValue.str s) = .error CategoryParseError.noValidItems
        ↔ ∀ t ∈ s.splitOn 44, normalizeWhitespace t = [])) ∧
    (∀ s l, parseCategoryIds (JsValue.str s) = .ok l →
      l ≠ [] ∧ l.Nodup ∧ l.Sublist (categoryTokens s) ∧
      (∀ x, x ∈ l ↔ x ∈ categoryTokens s) ∧
      (∀ x ∈ l, normalizeWhitespace x = x ∧ x ≠ [])) ∧
    parseCategoryIds (JsValue.str (codes " CATE9 , CATE44, CATE9 ,CATE55 ")) =
      .ok [codes "CATE9", codes "CATE44", codes "CATE55"] := by
  refine ⟨?_, ?_, ?_, by decide⟩
  · intro v hv
    cases v with
    | str s => exact absurd rfl (hv s)
    | num n => rfl
    | nullv => rfl
    | undef => rfl
    | boolv b => rfl
    | obj => rfl
  · intro s
    rw [parseCategoryIds_str]
    cases hd : dedupePreserveOrder (categoryTokens s) with
    | nil =>
      simp only [List.isEmpty_nil, if_true]
      constructor
      · intro _
        exact (categoryTokens_eq_nil_iff s).mp
          ((dedupePreserveOrder_eq_nil_iff _).mp hd)
      · intro _
        trivial
    | cons a t =>
      rw [show (a :: t).isEmpty = false from rfl]
      simp only [Bool.false_eq_true, if_false]
      constructor
      · intro h
        cases h
      · intro h
        exfalso
        have : dedupePreserveOrder (categoryTokens s) = [] :=
          (dedupePreserveOrder_eq_nil_iff _).mpr
            ((categoryTokens_eq_nil_iff s).mpr h)
        rw [hd] at this
        cases this
  · intro s l h
    rw [parseCategoryIds_str] at h
    cases hd : dedupePreserveOrder (categoryTokens s) with
    | nil =>
      rw [hd] at h
      cases h
    | cons a t =>
      rw [hd, show (a :: t).isEmpty = false from rfl] at h
      simp only [Bool.false_eq_true, if_false, Except.ok.injEq] at h
      subst h
      have hmemiff : ∀ x, x ∈ a :: t ↔ x ∈ categoryTokens s := by
        intro x
        rw [← hd]
        exact mem_dedupePreserveOrder _ x
      refine ⟨by simp, ?_, ?_, hmemiff, ?_⟩
      · rw [← hd]
        exact nodup_dedupeAux _ _
      · rw [← hd]
        exact dedupeAux_sublist _ _
      · intro x hx
        have hxtok : x ∈ categoryTokens s := (hmemiff x).mp hx
        rw [categoryTokens] at hxtok
        have hxf := List.of_mem_filter hxtok
        have hxm := List.mem_of_mem_filter hxtok
        rcases List.mem_map.mp hxm with ⟨tk, _, rfl⟩
        refine ⟨normalizeWhitespace_normalizeWhitespace tk, ?_⟩
        intro hnil
        rw [hnil] at hxf
        simp at hxf

/-- Witness instantiating `parseCategoryIds_spec` at concrete inputs. -/
theorem parseCategoryIds_spec_witness :
    parseCategoryIds JsValue.nullv = .error CategoryParseError.notString ∧
    parseCategoryIds (JsValue.str (codes " , , ")) =
      .error CategoryParseError.noValidItems ∧
    ([[67]] : List (List Nat)) ≠ [] :=
  ⟨parseCategoryIds_spec.1 JsValue.nullv (fun _ h => JsValue.noConfusion h),
   (parseCategoryIds_spec.2.1 (codes " , , ")).mpr (by decide),
   (parseCategoryIds_spec.2.2.1 (codes "C") [[67]] (by decide)).1⟩

/-! The JavaScript number model. -/

def Frac.ofInt (k : Int) : Frac := ⟨k, 1⟩

def Frac.neg (f : Frac) : Frac := ⟨-f.num, f.den⟩

/-- Multiply a fraction by `10 ^ e` for a signed exponent `e`. -/
def Frac.scaleExp (f : Frac) (e : Int) : Frac :=
  if 0 ≤ e then ⟨f.num * (10 : Int) ^ e.toNat, f.den⟩
  else ⟨f.num, f.den * 10 ^ (-e).toNat⟩

/-- Whether the fraction denotes an integer (denominator divides numerator). -/
def Frac.isInt (f : Frac) : Bool := f.num % (f.den : Int) == 0

/-- `Math.trunc` on an exact fraction: truncation toward zero. -/
def jsTrunc (f : Frac) : Int :=
  if f.num < 0 then -((f.num.natAbs / f.den : Nat) : Int)
  else ((f.num.natAbs / f.den : Nat) : Int)

theorem jsTrunc_ofInt (k : Int) : jsTrunc (Frac.ofInt k) = k := by
  unfold jsTrunc Frac.ofInt
  simp only [Nat.div_one]
  split <;> omega

def isDigit (c : Nat) : Bool := 48 ≤ c && c ≤ 57

/-- Numeric value of a string of ASCII digits, most significant first. -/
def digitsVal (l : List Nat) : Nat := l.foldl (fun acc c => acc * 10 + (c - 48)) 0

def hexDigitVal (c : Nat) : Option Nat :=
  if 48 ≤ c ∧ c ≤ 57 then some (c - 48)
  else if 97 ≤ c ∧ c ≤ 102 then some (c - 87)
  else if 65 ≤ c ∧ c ≤ 70 then some (c - 55)
  else none

def radixDigitVal (b c : Nat) : Option Nat :=
  match hexDigitVal c with
  | some d => if d < b then some d else none
  | none => none

def radixVal (b : Nat) (l : List Nat) : Option Nat :=
  l.foldl
    (fun acc c =>
      match acc, radixDigitVal b c with
      | some a, some d => some (a * b + d)
      | _, _ => none)
    (some 0)

/-- The optional exponent tail of a decimal literal (`e`/`E`, optional sign,
one or more digits); anything else fails the whole literal. -/
def parseExpPart (m : Frac) : List Nat → Option Frac
  | [] => some m
  | c :: rest =>
    if c = 101 ∨ c = 69 then
      let sd : Int × List Nat :=
        match rest with
        | 43 :: r => (1, r)
        | 45 :: r => (-1, r)
        | r => (1, r)
      if sd.2.isEmpty then none
      else if sd.2.all isDigit then
        some (m.scaleExp (sd.1 * (digitsVal sd.2 : Int)))
      else none
    else none

/-- An unsigned decimal literal: digits, optional `.` fraction, optional
exponent; at least one digit on one side of the dot. -/
def parseDecimalBody (l : List Nat) : Option Frac :=
  let ip := l.takeWhile isDigit
  let r1 := l.dropWhile isDigit
  match r1 with
  | 46 :: r2 =>
    let fp := r2.takeWhile isDigit
    let r3 := r2.dropWhile isDigit
    if ip.isEmpty && fp.isEmpty then none
    else
      parseExpPart
        ⟨(digitsVal ip * 10 ^ fp.length + digitsVal fp : Nat), 10 ^ fp.length⟩ r3
  | _ => if ip.isEmpty then none else parseExpPart ⟨(digitsVal ip : Nat), 1⟩ r1

/-- A signed decimal literal or signed `Infinity`. -/
def parseSignedDec (l : List Nat) : JsNum :=
  let nb : Bool × List Nat :=
    match l with
    | 43 :: r => (false, r)
    | 45 :: r => (true, r)
    | r => (false, r)
  if nb.2 = codes "Infinity" then (if nb.1 then .negInf else .inf)
  else
    match parseDecimalBody nb.2 with
    | some f => .finite (if nb.1 then f.neg else f)
    | none => .nan

def radixNum (b : Nat) (l : List Nat) : JsNum :=
  if l.isEmpty then .nan
  else
    match radixVal b l with
    | some n => .finite ⟨(n : Nat), 1⟩
    | none => .nan

/-- Modelled from ECMA-262 `StringToNumber` (the `Number()` builtin applied
to a string, a JavaScript primitive that is not repository code): trim
whitespace; the empty remainder is 0; then a signed decimal literal with
optional fraction and exponent, a signed `Infinity`, or an unsigned
`0x`/`0o`/`0b` radix literal; anything else is NaN. -/
def jsStrToNumber (l : List Nat) : JsNum :=
  match trimWs l with
  | [] => .finite ⟨0, 1⟩
  | 48 :: x :: rest =>
    if x = 120 ∨ x = 88 then radixNum 16 rest
    else if x = 111 ∨ x = 79 then radixNum 8 rest
    else if x = 98 ∨ x = 66 then radixNum 2 rest
    else parseSignedDec (48 :: x :: rest)
  | t => parseSignedDec t

/-- `parseNonNegativeInt` from `src/lib/utils.ts`: finite numbers are
truncated toward zero and rejected when negative; strings must trim to a
non-empty run of ASCII digits; everything else is `null`. -/
def parseNonNegativeInt (v : JsValue) : Option Int :=
  match v with
  | .num (.finite f) =>
    let r := jsTrunc f
    if 0 ≤ r then some r else none
  | .num _ => none
  | .str s =>
    let t := trimWs s
    if t.isEmpty then none
    else if t.all isDigit then some (digitsVal t : Int) else none
  | _ => none

/-- Whether a JavaScript number is a finite integer. -/
def JsNum.isIntNum : JsNum → Bool
  | .finite f => f.isInt
  | _ => false

/-- The typed row-error codes of the import pipeline
(`scripts/import-imweb-excel.ts`). -/
inductive ErrCode where
  | PRODUCT_ID
  | PRODUCT_NAME
  | CATEGORY
  | PRICE
  | INVENTORY_MISMATCH
  | OPTION_VALUES
  | EXISTS
  | MASTER_CODE_COLLISION
deriving DecidableEq

/-- `ImportRowError`: the row number and optional typed code carried by a
row-level failure (the message text is not modelled). -/
structure ImportRowError where
  rowNumber : Nat
  code : Option ErrCode
deriving DecidableEq

/-- The `numeric` intermediate of `parsePrice`:
`typeof value === 'number' ? value : typeof value === 'string' ?
Number(value.replace(/,/g, '').trim()) : NaN`. -/
def toNumericForPrice (v : JsValue) : JsNum :=
  match v with
  | .num n => n
  | .str s => jsStrToNumber (trimWs (s.filter fun c => c != 44))
  | _ => .nan

/-- `parsePrice` from the import script: non-finite numerics are a PRICE
error, the price is the truncation toward zero, and a negative truncation is
a PRICE error. -/
def parsePrice (v : JsValue) (rowNumber : Nat) : Except ImportRowError Int :=
  match toNumericForPrice v with
  | .finite f =>
    let price := jsTrunc f
    if price < 0 then .error ⟨rowNumber, some .PRICE⟩ else .ok price
  | _ => .error ⟨rowNumber, some .PRICE⟩

/-- C10 counterexample: the number `-0.5` (the fraction `-5/10`) is negative,
yet `parseNonNegativeInt` returns `0` for it rather than `null`, because
`Math.trunc(-0.5)` is `-0` and `-0 >= 0` holds. -/
theorem parseNonNegativeInt_counterexample :
    parseNonNegativeInt (JsValue.num (JsNum.finite ⟨-5, 10⟩)) = some 0 ∧
    (⟨-5, 10⟩ : Frac).num < 0 ∧ (0 : Nat) < (⟨-5, 10⟩ : Frac).den := by decide

/-- C10 (amended): `parseNonNegativeInt` returns `null` or an integer `≥ 0`;
a finite number is truncated toward zero and rejected exactly when its
truncation is negative (so negative fractions above `-1` are kept as `0`);
a string is accepted only when its trimmed form is a non-empty run of ASCII
digits; every non-finite number and every non-string non-number input maps
to `null`. -/
theorem parseNonNegativeInt_spec :
    (∀ v r, parseNonNegativeInt v = some r → 0 ≤ r) ∧
    (∀ f : Frac,
      (parseNonNegativeInt (JsValue.num (JsNum.finite f)) = none ↔
        jsTrunc f < 0) ∧
      (∀ r, parseNonNegativeInt (JsValue.num (JsNum.finite f)) = some r →
        r = jsTrunc f ∧ 0 ≤ jsTrunc f)) ∧
    (∀ s, (parseNonNegativeInt (JsValue.str s) = none ↔
        ¬(¬(trimWs s).isEmpty = true ∧ (trimWs s).all isDigit = true)) ∧
      (∀ r, parseNonNegativeInt (JsValue.str s) = some r →
        r = (digitsVal (trimWs s) : Int))) ∧
    (parseNonNegativeInt (JsValue.num JsNum.nan) = none ∧
     parseNonNegativeInt (JsValue.num JsNum.inf) = none ∧
     parseNonNegativeInt (JsValue.num JsNum.negInf) = none ∧
     parseNonNegativeInt JsValue.nullv = none ∧
     parseNonNegativeInt JsValue.undef = none ∧
     (∀ b, parseNonNegativeInt (JsValue.boolv b) = none) ∧
     parseNonNegativeInt JsValue.obj = none) := by
  refine ⟨?_, ?_, ?_, rfl, rfl, rfl, rfl, rfl, fun b => rfl, rfl⟩
  · intro v r h
    match v with
    | .num (.finite f) =>
      simp only [parseNonNegativeInt] at h
      by_cases h0 : 0 ≤ jsTrunc f
      · rw [if_pos h0] at h
        cases h
        exact h0
      · rw [if_neg h0] at h
        cases h
    | .num .nan => cases h
    | .num .inf => cases h
    | .num .negInf => cases h
    | .str s =>
      simp only [parseNonNegativeInt] at h
      by_cases he : (trimWs s).isEmpty
      · rw [if_pos he] at h
        cases h
      · rw [if_neg he] at h
        by_cases hd : (trimWs s).all isDigit
        · rw [if_pos hd] at h
          cases h
          exact Int.ofNat_nonneg _
        · rw [if_neg hd] at h
          cases h
    | .nullv => cases h
    | .undef => cases h
    | .boolv b => cases h
    | .obj => cases h
  · intro f
    constructor
    · simp only [parseNonNegativeInt]
      by_cases h0 : 0 ≤ jsTrunc f
      · rw [if_pos h0]
        constructor
        · intro h
          cases h
        · intro h
          omega
      · rw [if_neg h0]
        constructor
        · intro _
          omega
        · intro _
          rfl
    · intro r h
      simp only [parseNonNegativeInt] at h
      by_cases h0 : 0 ≤ jsTrunc f
      · rw [if_pos h0] at h
        cases h
        exact ⟨rfl, h0⟩
      · rw [if_neg h0] at h
        cases h
  · intro s
    constructor
    · simp only [parseNonNegativeInt]
      by_cases he : (trimWs s).isEmpty
      · simp [he]
      · by_cases hd : (trimWs s).all isDigit
        · simp [he, hd]
        · simp [he, hd]
    · intro r h
      simp only [parseNonNegativeInt] at h
      by_cases he : (trimWs s).isEmpty
      · rw [if_pos he] at h
        cases h
      · rw [if_neg he] at h
        by_cases hd : (trimWs s).all isDigit
        · rw [if_pos hd] at h
          cases h
          rfl
        · rw [if_neg hd] at h
          cases h

/-- Witness instantiating `parseNonNegativeInt_spec` at concrete inputs. -/
theorem parseNonNegativeInt_spec_witness :
    (0 : Int) ≤ 42 ∧
    (parseNonNegativeInt (JsValue.num (JsNum.finite ⟨-15, 10⟩)) = none) ∧
    (parseNonNegativeInt (JsValue.str (codes "4.2")) = none) :=
  ⟨parseNonNegativeInt_spec.1 (JsValue.str (codes " 42 ")) 42 (by decide),
   (parseNonNegativeInt_spec.2.1 ⟨-15, 10⟩).1.mpr (by decide),
   ((parseNonNegativeInt_spec.2.2.1 (codes "4.2")).1.mpr (by decide))⟩

/-- C7 counterexample: the cell `"12.5"` is not an integer, yet `parsePrice`
accepts it (as the truncation `12`) instead of raising a PRICE error. -/
theorem parsePrice_counterexample :
    parsePrice (JsValue.str (codes "12.5")) 2 = .ok 12 ∧
    (toNumericForPrice (JsValue.str (codes "12.5"))).isIntNum = false := by
  decide

/-- C7 (amended): `parsePrice` accepts a cell exactly when its numeric value
(after stripping commas) is finite with truncation toward zero `≥ 0`, and
then yields that truncation (so non-integer values like `"12.5"` are
truncated, not rejected); it raises a typed PRICE error exactly on
non-finite numerics and on values truncating to a negative integer; a
non-negative integer number is returned unchanged. -/
theorem parsePrice_of_finite {v : JsValue} {n : Nat} {f : Frac}
    (hn : toNumericForPrice v = .finite f) :
    parsePrice v n =
      if jsTrunc f < 0 then .error ⟨n, some ErrCode.PRICE⟩
      else .ok (jsTrunc f) := by
  simp only [parsePrice, hn]

theorem parsePrice_of_nan {v : JsValue} {n : Nat}
    (hn : toNumericForPrice v = .nan) :
    parsePrice v n = .error ⟨n, some ErrCode.PRICE⟩ := by
  simp only [parsePrice, hn]

theorem parsePrice_of_inf {v : JsValue} {n : Nat}
    (hn : toNumericForPrice v = .inf) :
    parsePrice v n = .error ⟨n, some ErrCode.PRICE⟩ := by
  simp only [parsePrice, hn]

theorem parsePrice_of_negInf {v : JsValue} {n : Nat}
    (hn : toNumericForPrice v = .negInf) :
    parsePrice v n = .error ⟨n, some ErrCode.PRICE⟩ := by
  simp only [parsePrice, hn]

theorem parsePrice_spec :
    (∀ v n p, parsePrice v n = .ok p →
      0 ≤ p ∧ ∃ f, toNumericForPrice v = .finite f ∧ p = jsTrunc f) ∧
    (∀ v n, parsePrice v n = .error ⟨n, some ErrCode.PRICE⟩ ↔
      (toNumericForPrice v = .nan ∨ toNumericForPrice v = .inf ∨
        toNumericForPrice v = .negInf ∨
        ∃ f, toNumericForPrice v = .finite f ∧ jsTrunc f < 0)) ∧
    (∀ (k : Int) n, 0 ≤ k →
      parsePrice (JsValue.num (JsNum.finite (Frac.ofInt k))) n = .ok k) := by
  refine ⟨?_, ?_, ?_⟩
  · intro v n p h
    cases hn : toNumericForPrice v with
    | finite f =>
      rw [parsePrice_of_finite hn] at h
      by_cases h0 : jsTrunc f < 0
      · rw [if_pos h0] at h
        cases h
      · rw [if_neg h0] at h
        cases h
        exact ⟨by omega, f, rfl, rfl⟩
    | nan => rw [parsePrice_of_nan hn] at h; cases h
    | inf => rw [parsePrice_of_inf hn] at h; cases h
    | negInf => rw [parsePrice_of_negInf hn] at h; cases h
  · intro v n
    cases hn : toNumericForPrice v with
    | finite f =>
      rw [parsePrice_of_finite hn]
      by_cases h0 : jsTrunc f < 0
      · rw [if_pos h0]
        constructor
        · intro _
          exact Or.inr (Or.inr (Or.inr ⟨f, rfl, h0⟩))
        · intro _
          rfl
      · rw [if_neg h0]
        constructor
        · intro h
          cases h
        · rintro (h | h | h | ⟨f', hf', hlt⟩)
          · cases h
          · cases h
          · cases h
          · cases hf'
            omega
    | nan =>
      rw [parsePrice_of_nan hn]
      exact ⟨fun _ => Or.inl rfl, fun _ => rfl⟩
    | inf =>
      rw [parsePrice_of_inf hn]
      exact ⟨fun _ => Or.inr (Or.inl rfl), fun _ => rfl⟩
    | negInf =>
      rw [parsePrice_of_negInf hn]
      exact ⟨fun _ => Or.inr (Or.inr (Or.inl rfl)), fun _ => rfl⟩
  · intro k n hk
    simp only [parsePrice, toNumericForPrice]
    rw [jsTrunc_ofInt]
    rw [if_neg (by omega)]

/-- Witness instantiating `parsePrice_spec` at concrete inputs. -/
theorem parsePrice_spec_witness :
    ((0 : Int) ≤ 12 ∧ ∃ f,
      toNumericForPrice (JsValue.str (codes "1,2.5")) = .finite f ∧
        (12 : Int) = jsTrunc f) ∧
    parsePrice JsValue.nullv 3 = .error ⟨3, some ErrCode.PRICE⟩ ∧
    parsePrice (JsValue.num (JsNum.finite (Frac.ofInt 900))) 4 = .ok 900 :=
  ⟨parsePrice_spec.1 (JsValue.str (codes "1,2.5")) 3 12 (by decide),
   (parsePrice_spec.2.1 JsValue.nullv 3).mpr (Or.inl rfl),
   parsePrice_spec.2.2 900 4 (by decide)⟩

/-! String rendering of numbers, and the remaining cell coercions. -/

def natToDigitsAux : Nat → Nat → List Nat → List Nat
  | 0, _, acc => acc
  | fuel + 1, n, acc =>
    if n = 0 then acc else natToDigitsAux fuel (n / 10) ((n % 10 + 48) :: acc)

/-- Decimal digits of a natural number (`"0"` for zero). -/
def natToDigits (n : Nat) : List Nat :=
  if n = 0 then [48] else natToDigitsAux n n []

def padLeftZeros (l : List Nat) (k : Nat) : List Nat :=
  List.replicate (k - l.length) 48 ++ l

def stripTrailZeros (l : List Nat) : List Nat :=
  (l.reverse.dropWhile fun c => c == 48).reverse

/-- Modelled from the `String()` JavaScript builtin on a finite number (a
JavaScript primitive, not repository code): sign, integer part, and for
non-integers a dot followed by the decimal expansion of the fractional part
(up to 17 places, trailing zeros stripped).  The claims only observe this
through emptiness and digit shape. -/
def numToString (f : Frac) : List Nat :=
  let sign : List Nat := if f.num < 0 then [45] else []
  let intPart := natToDigits (jsTrunc f).natAbs
  if f.isInt then sign ++ intPart
  else
    let fracNum : Nat := f.num.natAbs * 10 ^ 17 / f.den % 10 ^ 17
    let fracDigits := stripTrailZeros (padLeftZeros (natToDigits fracNum) 17)
    sign ++ intPart ++ [46] ++ (if fracDigits.isEmpty then [48] else fracDigits)

/-- `coerceString` from the import script: finite numbers are stringified,
strings trimmed, null/undefined become the empty string, anything else
throws an untyped error. -/
def coerceString (v : JsValue) : Except Unit (List Nat) :=
  match v with
  | .num (.finite f) => .ok (numToString f)
  | .str s => .ok (trimWs s)
  | .nullv => .ok []
  | .undef => .ok []
  | _ => .error ()

/-- `coerceOptionalString` from the import script: null/undefined and
non-stringlike values give `null`, finite numbers are stringified, strings
trim to `null` when empty. -/
def coerceOptionalString (v : JsValue) : Option (List Nat) :=
  match v with
  | .nullv => none
  | .undef => none
  | .num (.finite f) => some (numToString f)
  | .str s =>
    let t := trimWs s
    if t.isEmpty then none else some t
  | _ => none

/-- `normalizeYn` from `src/lib/utils.ts`: non-strings become the empty
string, strings are trimmed and uppercased. -/
def normalizeYn (v : JsValue) : List Nat :=
  match v with
  | .str s => jsToUpperStr (trimWs s)
  | _ => []

/-- `parseYnToBoolean` from `src/lib/utils.ts` (89 = `Y`, 78 = `N`). -/
def parseYnToBoolean (v : JsValue) (fallback : Bool) : Bool :=
  let n := normalizeYn v
  if n = [89] then true else if n = [78] then false else fallback

/-! The row model of the Excel importer. -/

inductive WarnMsg where
  | invFlagNotYn
  | stockMissing
  | optionNameMissing
deriving DecidableEq

structure ImportWarning where
  rowNumber : Nat
  msg : WarnMsg
deriving DecidableEq

structure OptionValueInput where
  displayValue : List Nat
  canonicalValue : List Nat
deriving DecidableEq

structure ParsedRow where
  rowNumber : Nat
  productId : List Nat
  name : List Nat
  categories : List (List Nat)
  issuedCategoryId : List Nat
  currentCategoryId : List Nat
  priceSale : Int
  inventoryTrack : Bool
  stockQty : Option Int
  saleStatus : Option (List Nat)
  displayStatus : Bool
  descriptionHtml : Option (List Nat)
  optionName : Option (List Nat)
  optionValues : List OptionValueInput
  thumbnailUrl : Option (List Nat)
  productUrl : Option (List Nat)
deriving DecidableEq

/-- One Excel row, with one field per column label the importer reads:
productId = 상품번호, name = 상품명, categoryId = 카테고리ID,
priceSale = 판매가, inventoryUsed = 재고사용, currentQty = 현재 재고수량,
optionQtySum = 필수옵션재고수량합계, displayStatus = 진열상태,
saleStatus = 판매상태, descriptionHtml = 상품상세정보,
optionUsed = 옵션사용, optionName = 필수옵션명,
optionValues = 필수옵션값, thumbnailUrl = 대표이미지URL,
productUrl = 상품URL. -/
structure ExcelRow where
  productId : JsValue
  name : JsValue
  categoryId : JsValue
  priceSale : JsValue
  inventoryUsed : JsValue
  currentQty : JsValue
  optionQtySum : JsValue
  displayStatus : JsValue
  saleStatus : JsValue
  descriptionHtml : JsValue
  optionUsed : JsValue
  optionName : JsValue
  optionValues : JsValue
  thumbnailUrl : JsValue
  productUrl : JsValue
deriving DecidableEq

def buildOptionAux (seen : List (List Nat)) :
    List (List Nat) → List OptionValueInput
  | [] => []
  | p :: rest =>
    let canon := canonicalizeOptionValue p
    if canon ∈ seen then buildOptionAux seen rest
    else ⟨p, canon⟩ :: buildOptionAux (canon :: seen) rest

/-- `buildOptionValues` from the import script: split the raw option-value
cell on commas, normalize, drop empties, dedupe by canonical value keeping
first occurrences. -/
def buildOptionValues (raw : List Nat) : List OptionValueInput :=
  buildOptionAux []
    (((raw.splitOn 44).map normalizeWhitespace).filter fun p => !p.isEmpty)

/-- The tail of `parseRow` from the inventory flag onward, after the
product-id, name, category and price fields have been validated.  Returns
the warnings the row pushed (also on the error path, matching the mutation
of the shared report in the script) alongside the outcome. -/
def parseRowRest (row : ExcelRow) (rowNumber : Nat)
    (productId name : List Nat) (categories : List (List Nat))
    (priceSale : Int) :
    List ImportWarning × Except ImportRowError ParsedRow :=
  let w1 : List ImportWarning :=
    if normalizeYn row.inventoryUsed = [89] ∨ normalizeYn row.inventoryUsed = [78]
    then [] else [⟨rowNumber, .invFlagNotYn⟩]
  let inventoryTrack := parseYnToBoolean row.inventoryUsed false
  let currentQty := parseNonNegativeInt row.currentQty
  let optionQty := parseNonNegativeInt row.optionQtySum
  if ¬inventoryTrack ∧ (currentQty ≠ none ∨ optionQty ≠ none) then
    (w1, .error ⟨rowNumber, some .INVENTORY_MISMATCH⟩)
  else
    let sw : Option Int × List ImportWarning :=
      if inventoryTrack then
        match currentQty with
        | some q => (some q, [])
        | none =>
          match optionQty with
          | some q => (some q, [])
          | none => (none, [⟨rowNumber, .stockMissing⟩])
      else (none, [])
    let base : ParsedRow :=
      { rowNumber := rowNumber
        productId := productId
        name := name
        categories := categories
        issuedCategoryId := categories.headD []
        currentCategoryId := categories.headD []
        priceSale := priceSale
        inventoryTrack := inventoryTrack
        stockQty := sw.1
        saleStatus := coerceOptionalString row.saleStatus
        displayStatus := parseYnToBoolean row.displayStatus false
        descriptionHtml := coerceOptionalString row.descriptionHtml
        optionName := none
        optionValues := []
        thumbnailUrl := coerceOptionalString row.thumbnailUrl
        productUrl := coerceOptionalString row.productUrl }
    if parseYnToBoolean row.optionUsed false then
      match coerceOptionalString row.optionName with
      | none => (w1 ++ sw.2 ++ [⟨rowNumber, .optionNameMissing⟩], .ok base)
      | some nm =>
        match coerceOptionalString row.optionValues with
        | none => (w1 ++ sw.2, .error ⟨rowNumber, some .OPTION_VALUES⟩)
        | some vals =>
          let ovs := buildOptionValues vals
          if ovs.isEmpty then (w1 ++ sw.2, .error ⟨rowNumber, some .OPTION_VALUES⟩)
          else
            (w1 ++ sw.2, .ok { base with optionName := some nm, optionValues := ovs })
    else (w1 ++ sw.2, .ok base)

/-- `parseRow` from the import script.  Errors thrown by `coerceString` on
the id and name fields carry no typed code (they are wrapped by the batch
loop); a category failure of any kind carries CATEGORY. -/
def parseRow (row : ExcelRow) (rowNumber : Nat) :
    List ImportWarning × Except ImportRowError ParsedRow :=
  match coerceString row.productId with
  | .error _ => ([], .error ⟨rowNumber, none⟩)
  | .ok productId =>
    if productId.isEmpty then ([], .error ⟨rowNumber, some .PRODUCT_ID⟩)
    else
      match coerceString row.name with
      | .error _ => ([], .error ⟨rowNumber, none⟩)
      | .ok name =>
        if name.isEmpty then ([], .error ⟨rowNumber, some .PRODUCT_NAME⟩)
        else
          match coerceString row.categoryId with
          | .error _ => ([], .error ⟨rowNumber, some .CATEGORY⟩)
          | .ok catRaw =>
            match parseCategoryIds (.str catRaw) with
            | .error _ => ([], .error ⟨rowNumber, some .CATEGORY⟩)
            | .ok categories =>
              match parsePrice row.priceSale rowNumber with
              | .error e => ([], .error e)
              | .ok priceSale =>
                parseRowRest row rowNumber productId name categories priceSale

/-! The persistence model of the importer. -/

/-- A created product row (with its option rows, image rows and external
map, which the script creates in the same insert). -/
structure ProductRec where
  master_code : List Nat
  name : List Nat
  issued_category_id : List Nat
  current_category_id : List Nat
  category_ids_raw : List (List Nat)
  price_sale : Int
  inventory_track : Bool
  stock_qty : Option Int
  sale_status : Option (List Nat)
  display_status : Bool
  description_html : Option (List Nat)
  option_name : Option (List Nat)
  optionValueRows : List (List Nat × List Nat × List Nat)
  imageRows : List (List Nat)
  external_id : List Nat
  external_url : Option (List Nat)
deriving DecidableEq

/-- The persistence state: the (IMWEB, external id) mappings, the products,
and the per-category code sequences. -/
structure Db where
  mapIds : List (List Nat)
  products : List ProductRec
  seqs : List (List Nat × Nat)
deriving DecidableEq

def lookupSeq : List (List Nat × Nat) → List Nat → Option Nat
  | [], _ => none
  | (c, n) :: rest, cat => if c = cat then some n else lookupSeq rest cat

def setSeq : List (List Nat × Nat) → List Nat → Nat → List (List Nat × Nat)
  | [], cat, n => [(cat, n)]
  | (c, m) :: rest, cat, n =>
    if c = cat then (cat, n) :: rest else (c, m) :: setSeq rest cat n

/-- Master code format: `{categoryId}-{sequence zero-padded to 5 digits}`
(45 is the hyphen). -/
def formatMasterCode (cat : List Nat) (seq : Nat) : List Nat :=
  cat ++ [45] ++ padLeftZeros (natToDigits seq) 5

/-- Modelled from the spec: `CodeIssuer.issueMasterCode` — the CodeIssuer
implementation file is absent from the sources (only its callers are
present); per the spec it creates the per-category counter at 1 on first
use, otherwise atomically increments it, inside the caller's transaction,
and formats `{categoryId}-{sequence zero-padded to 5 digits}`. -/
def issueMasterCode (db : Db) (categoryId : List Nat) :
    (List Nat × Nat) × Db :=
  let next :=
    match lookupSeq db.seqs categoryId with
    | none => 1
    | some n => n + 1
  ((formatMasterCode categoryId next, next),
    { db with seqs := setSeq db.seqs categoryId next })

inductive ImportOutcome where
  | created
  | skipped
deriving DecidableEq

/-- The product record created for a parsed row: option rows only when an
option name survived parsing and the value list is non-empty, a thumbnail
image row when a URL was present, and the external map in the same row. -/
def mkProduct (parsed : ParsedRow) (mc : List Nat) : ProductRec :=
  { master_code := mc
    name := parsed.name
    issued_category_id := parsed.issuedCategoryId
    current_category_id := parsed.currentCategoryId
    category_ids_raw := parsed.categories
    price_sale := parsed.priceSale
    inventory_track := parsed.inventoryTrack
    stock_qty := parsed.stockQty
    sale_status := parsed.saleStatus
    display_status := parsed.displayStatus
    description_html := parsed.descriptionHtml
    option_name := parsed.optionName
    optionValueRows :=
      if ¬parsed.optionValues.isEmpty ∧ parsed.optionName.isSome then
        parsed.optionValues.map fun v =>
          (parsed.optionName.getD [], v.displayValue, v.canonicalValue)
      else []
    imageRows :=
      match parsed.thumbnailUrl with
      | some u => [u]
      | none => []
    external_id := parsed.productId
    external_url := parsed.productUrl }

/-- `importRow` from the import script, as one atomic transaction: an
existing (IMWEB, external id) mapping is an EXISTS error or a skip; else a
master code is issued, a collision with an existing product's code is fatal
for the row, else the product is created; any error leaves the state
unchanged (transaction rollback). -/
def importRow (parsed : ParsedRow) (allowExisting : Bool) (db : Db) :
    Except ImportRowError (ImportOutcome × Db) :=
  if parsed.productId ∈ db.mapIds then
    if ¬allowExisting then .error ⟨parsed.rowNumber, some .EXISTS⟩
    else .ok (.skipped, db)
  else
    let r := issueMasterCode db parsed.issuedCategoryId
    if db.products.any (fun p => p.master_code == r.1.1) then
      .error ⟨parsed.rowNumber, some .MASTER_CODE_COLLISION⟩
    else
      .ok (.created,
        { r.2 with
          mapIds := parsed.productId :: r.2.mapIds
          products := mkProduct parsed r.1.1 :: r.2.products })

/-- The batch report status; `mixed` models the script's `'partial'`
status (that word is reserved in Lean). -/
inductive BatchStatus where
  | success
  | failed
  | mixed
deriving DecidableEq

structure ImportReport where
  totalRows : Nat
  processed : Nat
  skippedExisting : Nat
  warnings : List ImportWarning
  errors : List ImportRowError
  status : BatchStatus
deriving DecidableEq

/-- The report as initialized by the script (status starts as `failed`). -/
def initialReport : ImportReport :=
  { totalRows := 0
    processed := 0
    skippedExisting := 0
    warnings := []
    errors := []
    status := .failed }

/-- The row loop of the import script's `main`: the row number is the
0-based index plus 2 (the header is row 1), warnings are appended also when
the row later fails, a failing row appends one error and leaves the state
unchanged, and the loop always continues with the remaining rows. -/
def runRowsAux (allowExisting : Bool) :
    Nat → Db → ImportReport → List ExcelRow → ImportReport × Db
  | _, db, rep, [] => (rep, db)
  | idx, db, rep, row :: rest =>
    let pr := parseRow row (idx + 2)
    match pr.2 with
    | .error e =>
      runRowsAux allowExisting (idx + 1) db
        { rep with
          warnings := rep.warnings ++ pr.1
          errors := rep.errors ++ [e] } rest
    | .ok parsed =>
      match importRow parsed allowExisting db with
      | .error e =>
        runRowsAux allowExisting (idx + 1) db
          { rep with
            warnings := rep.warnings ++ pr.1
            errors := rep.errors ++ [e] } rest
      | .ok (.created, db') =>
        runRowsAux allowExisting (idx + 1) db'
          { rep with
            warnings := rep.warnings ++ pr.1
            processed := rep.processed + 1 } rest
      | .ok (.skipped, db') =>
        runRowsAux allowExisting (idx + 1) db'
          { rep with
            warnings := rep.warnings ++ pr.1
            skippedExisting := rep.skippedExisting + 1 } rest

/-- The import batch: a failing row source yields the initial (`failed`)
report with a non-zero completion signal and no state change; otherwise all
rows run, and the status is `success` exactly when no row errored, else
`partial` with a non-zero completion signal. -/
def runImport (source : Except Unit (List ExcelRow)) (allowExisting : Bool)
    (db : Db) : ImportReport × Db × Bool :=
  match source with
  | .error _ => (initialReport, db, true)
  | .ok rows =>
    let rd := runRowsAux allowExisting 0 db
      { initialReport with totalRows := rows.length } rows
    if rd.1.errors.isEmpty then
      ({ rd.1 with status := .success }, rd.2, false)
    else
      ({ rd.1 with status := .mixed }, rd.2, true)

/-! Helper lemmas about the row loop. -/

/-- The row number carried by either outcome of a row. -/
def outRowNumber : Except ImportRowError ParsedRow → Nat
  | .error e => e.rowNumber
  | .ok p => p.rowNumber

theorem parsePrice_error_eq (v : JsValue) (n : Nat) (e : ImportRowError)
    (h : parsePrice v n = .error e) : e = ⟨n, some ErrCode.PRICE⟩ := by
  cases hn : toNumericForPrice v with
  | finite f =>
    rw [parsePrice_of_finite hn] at h
    by_cases h0 : jsTrunc f < 0
    · rw [if_pos h0] at h
      cases h
      rfl
    · rw [if_neg h0] at h
      cases h
  | nan => rw [parsePrice_of_nan hn] at h; cases h; rfl
  | inf => rw [parsePrice_of_inf hn] at h; cases h; rfl
  | negInf => rw [parsePrice_of_negInf hn] at h; cases h; rfl

theorem parseRowRest_outRowNumber (row : ExcelRow) (n : Nat)
    (pid nm : List Nat) (cats : List (List Nat)) (price : Int) :
    outRowNumber (parseRowRest row n pid nm cats price).2 = n := by
  simp only [parseRowRest]
  repeat' split
  all_goals rfl

theorem parseRow_outRowNumber (row : ExcelRow) (n : Nat) :
    outRowNumber (parseRow row n).2 = n := by
  simp only [parseRow]
  repeat' split
  any_goals rfl
  any_goals apply parseRowRest_outRowNumber
  next e he =>
    rw [parsePrice_error_eq _ _ _ he]
    rfl

theorem importRow_error_rowNumber (parsed : ParsedRow) (a : Bool) (db : Db)
    (e : ImportRowError) (h : importRow parsed a db = .error e) :
    e.rowNumber = parsed.rowNumber := by
  simp only [importRow] at h
  repeat' split at h
  all_goals cases h
  all_goals rfl

theorem runRowsAux_cons_parseError {a : Bool} {row : ExcelRow} {idx : Nat}
    {db : Db} {rep : ImportReport} {rest : List ExcelRow} {e : ImportRowError}
    (hp : (parseRow row (idx + 2)).2 = .error e) :
    runRowsAux a idx db rep (row :: rest) =
      runRowsAux a (idx + 1) db
        { rep with
          warnings := rep.warnings ++ (parseRow row (idx + 2)).1
          errors := rep.errors ++ [e] } rest := by
  simp only [runRowsAux, hp]

theorem runRowsAux_cons_importError {a : Bool} {row : ExcelRow} {idx : Nat}
    {db : Db} {rep : ImportReport} {rest : List ExcelRow} {parsed : ParsedRow}
    {e : ImportRowError} (hp : (parseRow row (idx + 2)).2 = .ok parsed)
    (hi : importRow parsed a db = .error e) :
    runRowsAux a idx db rep (row :: rest) =
      runRowsAux a (idx + 1) db
        { rep with
          warnings := rep.warnings ++ (parseRow row (idx + 2)).1
          errors := rep.errors ++ [e] } rest := by
  simp only [runRowsAux, hp, hi]

theorem runRowsAux_cons_created {a : Bool} {row : ExcelRow} {idx : Nat}
    {db db' : Db} {rep : ImportReport} {rest : List ExcelRow}
    {parsed : ParsedRow} (hp : (parseRow row (idx + 2)).2 = .ok parsed)
    (hi : importRow parsed a db = .ok (.created, db')) :
    runRowsAux a idx db rep (row :: rest) =
      runRowsAux a (idx + 1) db'
        { rep with
          warnings := rep.warnings ++ (parseRow row (idx + 2)).1
          processed := rep.processed + 1 } rest := by
  simp only [runRowsAux, hp, hi]

theorem runRowsAux_cons_skipped {a : Bool} {row : ExcelRow} {idx : Nat}
    {db db' : Db} {rep : ImportReport} {rest : List ExcelRow}
    {parsed : ParsedRow} (hp : (parseRow row (idx + 2)).2 = .ok parsed)
    (hi : importRow parsed a db = .ok (.skipped, db')) :
    runRowsAux a idx db rep (row :: rest) =
      runRowsAux a (idx + 1) db'
        { rep with
          warnings := rep.warnings ++ (parseRow row (idx + 2)).1
          skippedExisting := rep.skippedExisting + 1 } rest := by
  simp only [runRowsAux, hp, hi]

theorem runRowsAux_counts (a : Bool) (rows : List ExcelRow) :
    ∀ (idx : Nat) (db : Db) (rep : ImportReport),
      (runRowsAux a idx db rep rows).1.processed +
        (runRowsAux a idx db rep rows).1.skippedExisting +
        (runRowsAux a idx db rep rows).1.errors.length =
      rep.processed + rep.skippedExisting + rep.errors.length + rows.length := by
  induction rows with
  | nil =>
    intro idx db rep
    simp [runRowsAux]
  | cons row rest ih =>
    intro idx db rep
    cases hp : (parseRow row (idx + 2)).2 with
    | error e =>
      rw [runRowsAux_cons_parseError hp, ih]
      simp
      omega
    | ok parsed =>
      cases hi : importRow parsed a db with
      | error e =>
        rw [runRowsAux_cons_importError hp hi, ih]
        simp
        omega
      | ok od =>
        cases od with
        | mk oc db' =>
          cases oc with
          | created =>
            rw [runRowsAux_cons_created hp hi, ih]
            simp
            omega
          | skipped =>
            rw [runRowsAux_cons_skipped hp hi, ih]
            simp
            omega

theorem runRowsAux_errors_bound (a : Bool) (rows : List ExcelRow) :
    ∀ (idx : Nat) (db : Db) (rep : ImportReport) (e : ImportRowError),
      e ∈ (runRowsAux a idx db rep rows).1.errors →
      e ∈ rep.errors ∨
        (idx + 2 ≤ e.rowNumber ∧ e.rowNumber < idx + 2 + rows.length) := by
  induction rows with
  | nil =>
    intro idx db rep e he
    exact Or.inl he
  | cons row rest ih =>
    intro idx db rep e he
    have hstep :
        ∀ (db' : Db) (e0 : ImportRowError), e0.rowNumber = idx + 2 →
        e ∈ (runRowsAux a (idx + 1) db'
          { rep with
            warnings := rep.warnings ++ (parseRow row (idx + 2)).1
            errors := rep.errors ++ [e0] } rest).1.errors →
        e ∈ rep.errors ∨
          (idx + 2 ≤ e.rowNumber ∧ e.rowNumber < idx + 2 + (row :: rest).length) := by
      intro db' e0 hnum hmem
      rcases ih (idx + 1) db' _ e hmem with hold | ⟨h1, h2⟩
      · rcases List.mem_append.mp hold with hold' | hnew
        · exact Or.inl hold'
        · right
          rcases List.mem_singleton.mp hnew with rfl
          simp [hnum, List.length_cons]
      · right
        constructor
        · omega
        · simp only [List.length_cons]
          omega
    cases hp : (parseRow row (idx + 2)).2 with
    | error e0 =>
      rw [runRowsAux_cons_parseError hp] at he
      have hnum : e0.rowNumber = idx + 2 := by
        have := parseRow_outRowNumber row (idx + 2)
        rw [hp] at this
        exact this
      exact hstep db e0 hnum he
    | ok parsed =>
      have hpn : parsed.rowNumber = idx + 2 := by
        have := parseRow_outRowNumber row (idx + 2)
        rw [hp] at this
        exact this
      cases hi : importRow parsed a db with
      | error e0 =>
        rw [runRowsAux_cons_importError hp hi] at he
        have hnum : e0.rowNumber = idx + 2 := by
          rw [importRow_error_rowNumber parsed a db e0 hi, hpn]
        exact hstep db e0 hnum he
      | ok od =>
        cases od with
        | mk oc db' =>
          cases oc with
          | created =>
            rw [runRowsAux_cons_created hp hi] at he
            rcases ih (idx + 1) db' _ e he with hold | ⟨h1, h2⟩
            · exact Or.inl hold
            · right
              refine ⟨by omega, ?_⟩
              simp only [List.length_cons]
              omega
          | skipped =>
            rw [runRowsAux_cons_skipped hp hi] at he
            rcases ih (idx + 1) db' _ e he with hold | ⟨h1, h2⟩
            · exact Or.inl hold
            · right
              refine ⟨by omega, ?_⟩
              simp only [List.length_cons]
              omega

/-- C5: the import batch continues past row-level errors: every row
contributes exactly one outcome (created, skipped, or a recorded error whose
row number lies in the batch's 1-indexed-plus-header range), the final
status is `success` exactly when the errors list is empty and `partial`
(here `mixed`) otherwise, any row error forces the non-zero completion
signal, and a failing source yields the initial `failed` report with a
non-zero signal. -/
theorem runImport_spec :
    (∀ (rows : List ExcelRow) (a : Bool) (db : Db),
      ((runImport (.ok rows) a db).1.status =
        (if (runImport (.ok rows) a db).1.errors.isEmpty then .success
         else .mixed)) ∧
      ((runImport (.ok rows) a db).2.2 =
        !(runImport (.ok rows) a db).1.errors.isEmpty) ∧
      ((runImport (.ok rows) a db).1.processed +
        (runImport (.ok rows) a db).1.skippedExisting +
        (runImport (.ok rows) a db).1.errors.length = rows.length) ∧
      (∀ e ∈ (runImport (.ok rows) a db).1.errors,
        2 ≤ e.rowNumber ∧ e.rowNumber < rows.length + 2)) ∧
    (∀ (a : Bool) (db : Db),
      runImport (.error ()) a db = (initialReport, db, true) ∧
      initialReport.status = .failed) := by
  constructor
  · intro rows a db
    simp only [runImport]
    cases hemp : (runRowsAux a 0 db
        { initialReport with totalRows := rows.length } rows).1.errors.isEmpty
    · simp only [Bool.false_eq_true, if_false]
      refine ⟨by simp [hemp], by simp [hemp], ?_, ?_⟩
      · have := runRowsAux_counts a rows 0 db
          { initialReport with totalRows := rows.length }
        simp only [initialReport] at this ⊢
        simp at this ⊢
        omega
      · intro e he
        have := runRowsAux_errors_bound a rows 0 db
          { initialReport with totalRows := rows.length } e he
        rcases this with h | ⟨h1, h2⟩
        · simp [initialReport] at h
        · omega
    · simp only [if_true]
      refine ⟨by simp [hemp], by simp [hemp], ?_, ?_⟩
      · have := runRowsAux_counts a rows 0 db
          { initialReport with totalRows := rows.length }
        simp only [initialReport] at this ⊢
        simp at this ⊢
        omega
      · intro e he
        have := runRowsAux_errors_bound a rows 0 db
          { initialReport with totalRows := rows.length } e he
        rcases this with h | ⟨h1, h2⟩
        · simp [initialReport] at h
        · omega
  · intro a db
    exact ⟨rfl, rfl⟩

/-- An empty persistence state. -/
def emptyDb : Db := ⟨[], [], []⟩

/-- A row whose cells are all null. -/
def blankRow : ExcelRow :=
  ⟨.nullv, .nullv, .nullv, .nullv, .nullv, .nullv, .nullv, .nullv,
   .nullv, .nullv, .nullv, .nullv, .nullv, .nullv, .nullv⟩

/-- Witness instantiating `runImport_spec` on a one-row batch whose single
row fails (missing product id). -/
theorem runImport_spec_witness :
    ((runImport (.ok [blankRow]) false emptyDb).1.processed +
      (runImport (.ok [blankRow]) false emptyDb).1.skippedExisting +
      (runImport (.ok [blankRow]) false emptyDb).1.errors.length = 1) ∧
    (2 ≤ (⟨2, some ErrCode.PRODUCT_ID⟩ : ImportRowError).rowNumber ∧
      (⟨2, some ErrCode.PRODUCT_ID⟩ : ImportRowError).rowNumber <
        [blankRow].length + 2) :=
  ⟨((runImport_spec.1 [blankRow] false emptyDb).2.2.1 : _),
   (runImport_spec.1 [blankRow] false emptyDb).2.2.2
     ⟨2, some ErrCode.PRODUCT_ID⟩ (by decide)⟩

theorem isEmpty_false_of_ne_nil {α : Type} {l : List α} (h : l ≠ []) :
    l.isEmpty = false := by
  cases l with
  | nil => exact absurd rfl h
  | cons c t => rfl

theorem parseRowRest_mismatch (row : ExcelRow) (n : Nat) (pid nm : List Nat)
    (cats : List (List Nat)) (price : Int)
    (hinv : parseYnToBoolean row.inventoryUsed false = false)
    (hq : parseNonNegativeInt row.currentQty ≠ none ∨
      parseNonNegativeInt row.optionQtySum ≠ none) :
    parseRowRest row n pid nm cats price =
      ((if normalizeYn row.inventoryUsed = [89] ∨
          normalizeYn row.inventoryUsed = [78]
        then [] else [⟨n, .invFlagNotYn⟩]),
       .error ⟨n, some ErrCode.INVENTORY_MISMATCH⟩) := by
  have hcond : ¬(parseYnToBoolean row.inventoryUsed false = true) ∧
      (parseNonNegativeInt row.currentQty ≠ none ∨
        parseNonNegativeInt row.optionQtySum ≠ none) :=
    ⟨by simp [hinv], hq⟩
  simp only [parseRowRest]
  rw [if_pos hcond]

/-- C4 counterexample: a row with inventoryTrack=false and a present stock
quantity whose product id is empty fails with PRODUCT_ID, not
INVENTORY_MISMATCH. -/
def mismatchBadRow : ExcelRow :=
  ⟨.str [], .str (codes "X"), .str (codes "CATE9"), .str (codes "1000"),
   .str (codes "N"), .str (codes "5"), .nullv, .nullv, .nullv, .nullv,
   .nullv, .nullv, .nullv, .nullv, .nullv⟩

theorem inventory_mismatch_counterexample :
    parseYnToBoolean mismatchBadRow.inventoryUsed false = false ∧
    parseNonNegativeInt mismatchBadRow.currentQty ≠ none ∧
    (parseRow mismatchBadRow 2).2 = .error ⟨2, some ErrCode.PRODUCT_ID⟩ ∧
    (⟨2, some ErrCode.PRODUCT_ID⟩ : ImportRowError) ≠
      ⟨2, some ErrCode.INVENTORY_MISMATCH⟩ := by
  decide

/-- C4 (amended): a row with inventoryTrack=false and a present
stock-quantity field always fails its parse (so zero persistence side
effects: the loop records one error and passes the state through
unchanged), and the error is specifically INVENTORY_MISMATCH whenever the
earlier per-field validations (product id, name, category, price) pass. -/
theorem inventory_mismatch_spec (row : ExcelRow)
    (hinv : parseYnToBoolean row.inventoryUsed false = false)
    (hq : parseNonNegativeInt row.currentQty ≠ none ∨
      parseNonNegativeInt row.optionQtySum ≠ none) :
    (∀ n, ∃ e, (parseRow row n).2 = .error e) ∧
    (∀ (n : Nat) (pid nm cat : List Nat) (cats : List (List Nat))
      (price : Int),
      coerceString row.productId = .ok pid → pid ≠ [] →
      coerceString row.name = .ok nm → nm ≠ [] →
      coerceString row.categoryId = .ok cat →
      parseCategoryIds (.str cat) = .ok cats →
      parsePrice row.priceSale n = .ok price →
      (parseRow row n).2 = .error ⟨n, some ErrCode.INVENTORY_MISMATCH⟩) ∧
    (∀ (a : Bool) (idx : Nat) (db : Db) (rep : ImportReport)
      (rest : List ExcelRow), ∃ e,
      runRowsAux a idx db rep (row :: rest) =
        runRowsAux a (idx + 1) db
          { rep with
            warnings := rep.warnings ++ (parseRow row (idx + 2)).1
            errors := rep.errors ++ [e] } rest) := by
  have hpart1 : ∀ n, ∃ e, (parseRow row n).2 = .error e := by
    intro n
    simp only [parseRow]
    repeat' split
    any_goals exact ⟨_, rfl⟩
    rw [parseRowRest_mismatch row n _ _ _ _ hinv hq]
    exact ⟨_, rfl⟩
  refine ⟨hpart1, ?_, ?_⟩
  · intro n pid nm cat cats price h1 h2 h3 h4 h5 h6 h7
    simp only [parseRow, h1, h3, h5, h6, h7]
    rw [if_neg (by simp [isEmpty_false_of_ne_nil h2]),
      if_neg (by simp [isEmpty_false_of_ne_nil h4])]
    rw [parseRowRest_mismatch row n _ _ _ _ hinv hq]
  · intro a idx db rep rest
    obtain ⟨e, he⟩ := hpart1 (idx + 2)
    exact ⟨e, runRowsAux_cons_parseError he⟩

/-- A fully valid row apart from inventoryTrack=N with a stock quantity. -/
def mismatchOkRow : ExcelRow :=
  ⟨.str (codes "P1"), .str (codes "NAME"), .str (codes "CATE9"),
   .str (codes "1000"), .str (codes "N"), .str (codes "5"), .nullv, .nullv,
   .nullv, .nullv, .nullv, .nullv, .nullv, .nullv, .nullv⟩

/-- Witness instantiating `inventory_mismatch_spec` at a concrete row. -/
theorem inventory_mismatch_spec_witness :
    (parseRow mismatchOkRow 2).2 =
      .error ⟨2, some ErrCode.INVENTORY_MISMATCH⟩ :=
  (inventory_mismatch_spec mismatchOkRow (by decide) (by decide)).2.1
    2 (codes "P1") (codes "NAME") (codes "CATE9") [codes "CATE9"] 1000
    (by decide) (by decide) (by decide) (by decide) (by decide) (by decide)
    (by decide)

/-- C8 counterexample: a row with optionUsed=Y and a missing option name
whose product name is empty does not parse successfully — it fails with
PRODUCT_NAME. -/
def optionBadRow : ExcelRow :=
  ⟨.str (codes "P1"), .str [], .str (codes "CATE9"), .str (codes "1000"),
   .str (codes "Y"), .str (codes "5"), .nullv, .nullv, .nullv, .nullv,
   .str (codes "Y"), .nullv, .nullv, .nullv, .nullv⟩

theorem option_name_missing_counterexample :
    parseYnToBoolean optionBadRow.optionUsed false = true ∧
    coerceOptionalString optionBadRow.optionName = none ∧
    (parseRow optionBadRow 2).2 = .error ⟨2, some ErrCode.PRODUCT_NAME⟩ := by
  decide

theorem parseRowRest_option_missing (row : ExcelRow) (n : Nat)
    (pid nm : List Nat) (cats : List (List Nat)) (price : Int)
    (hmm : ¬(¬(parseYnToBoolean row.inventoryUsed false = true) ∧
      (parseNonNegativeInt row.currentQty ≠ none ∨
        parseNonNegativeInt row.optionQtySum ≠ none)))
    (hou : parseYnToBoolean row.optionUsed false = true)
    (hon : coerceOptionalString row.optionName = none) :
    ∃ parsed, (parseRowRest row n pid nm cats price).2 = .ok parsed ∧
      (⟨n, WarnMsg.optionNameMissing⟩ : ImportWarning) ∈
        (parseRowRest row n pid nm cats price).1 ∧
      parsed.optionName = none ∧ parsed.optionValues = [] ∧
      parsed.rowNumber = n ∧ parsed.productId = pid ∧ parsed.name = nm := by
  simp only [parseRowRest]
  rw [if_neg hmm, if_pos hou, hon]
  refine ⟨_, rfl, ?_, rfl, rfl, rfl, rfl, rfl⟩
  exact List.mem_append_right _ (List.mem_singleton_self _)

/-- C8 (amended): for a row that passes the earlier validations and the
inventory-coherence check, optionUsed=Y with a missing option name still
parses successfully: a warning is recorded, the intent has a null option
name and no option values, and importing it (when the mapping is new and
the issued code collides with nothing) creates the product with
option_name null and zero option rows. -/
theorem option_name_missing_spec (row : ExcelRow) (n : Nat)
    (pid nm cat : List Nat) (cats : List (List Nat)) (price : Int)
    (h1 : coerceString row.productId = .ok pid) (h2 : pid ≠ [])
    (h3 : coerceString row.name = .ok nm) (h4 : nm ≠ [])
    (h5 : coerceString row.categoryId = .ok cat)
    (h6 : parseCategoryIds (.str cat) = .ok cats)
    (h7 : parsePrice row.priceSale n = .ok price)
    (hmm : ¬(¬(parseYnToBoolean row.inventoryUsed false = true) ∧
      (parseNonNegativeInt row.currentQty ≠ none ∨
        parseNonNegativeInt row.optionQtySum ≠ none)))
    (hou : parseYnToBoolean row.optionUsed false = true)
    (hon : coerceOptionalString row.optionName = none) :
    ∃ parsed, (parseRow row n).2 = .ok parsed ∧
      (⟨n, WarnMsg.optionNameMissing⟩ : ImportWarning) ∈ (parseRow row n).1 ∧
      parsed.optionName = none ∧ parsed.optionValues = [] ∧
      (∀ (a : Bool) (db : Db),
        pid ∉ db.mapIds →
        (∀ p ∈ db.products,
          p.master_code ≠ (issueMasterCode db parsed.issuedCategoryId).1.1) →
        ∃ db', importRow parsed a db = .ok (.created, db') ∧
          ∃ prod, db'.products = prod :: db.products ∧
            prod.option_name = none ∧ prod.optionValueRows = [] ∧
            prod.name = parsed.name ∧ prod.external_id = pid) := by
  have hrow : (parseRow row n) = parseRowRest row n pid nm cats price := by
    simp only [parseRow, h1, h3, h5, h6, h7]
    rw [if_neg (by simp [isEmpty_false_of_ne_nil h2]),
      if_neg (by simp [isEmpty_false_of_ne_nil h4])]
  obtain ⟨parsed, hok, hwarn, hoptn, hoptv, hnum, hpid, hnm⟩ :=
    parseRowRest_option_missing row n pid nm cats price hmm hou hon
  refine ⟨parsed, by rw [hrow]; exact hok, by rw [hrow]; exact hwarn,
    hoptn, hoptv, ?_⟩
  intro a db hmap hcoll
  have hnotin : parsed.productId ∉ db.mapIds := by
    rw [hpid]
    exact hmap
  simp only [importRow]
  rw [if_neg hnotin]
  have hany : (db.products.any fun p =>
      p.master_code == (issueMasterCode db parsed.issuedCategoryId).1.1) =
      false := by
    rw [List.any_eq_false]
    intro p hp
    simpa using hcoll p hp
  rw [if_neg (by simp [hany])]
  refine ⟨_, rfl, mkProduct parsed (issueMasterCode db parsed.issuedCategoryId).1.1,
    rfl, ?_, ?_, rfl, by simp [mkProduct, hpid]⟩
  · simp [mkProduct, hoptn]
  · simp [mkProduct, hoptv, hoptn]

/-- A fully valid row with optionUsed=Y and no option name. -/
def optionOkRow : ExcelRow :=
  ⟨.str (codes "P1"), .str (codes "NAME"), .str (codes "CATE9"),
   .str (codes "1000"), .str (codes "N"), .nullv, .nullv, .nullv, .nullv,
   .nullv, .str (codes "Y"), .nullv, .nullv, .nullv, .nullv⟩

/-- Witness instantiating `option_name_missing_spec` at a concrete row. -/
theorem option_name_missing_spec_witness :
    ∃ parsed, (parseRow optionOkRow 2).2 = .ok parsed ∧
      (⟨2, WarnMsg.optionNameMissing⟩ : ImportWarning) ∈
        (parseRow optionOkRow 2).1 ∧
      parsed.optionName = none ∧ parsed.optionValues = [] ∧
      (∀ (a : Bool) (db : Db),
        codes "P1" ∉ db.mapIds →
        (∀ p ∈ db.products,
          p.master_code ≠ (issueMasterCode db parsed.issuedCategoryId).1.1) →
        ∃ db', importRow parsed a db = .ok (.created, db') ∧
          ∃ prod, db'.products = prod :: db.products ∧
            prod.option_name = none ∧ prod.optionValueRows = [] ∧
            prod.name = parsed.name ∧ prod.external_id = codes "P1") :=
  option_name_missing_spec optionOkRow 2 (codes "P1") (codes "NAME")
    (codes "CATE9") [codes "CATE9"] 1000 (by decide) (by decide) (by decide)
    (by decide) (by decide) (by decide) (by decide) (by decide) (by decide)
    (by decide)

/-! The retry policy of the push script. -/

/-- The `runWithRetry` loop as a trace: the outcome of each attempt is a
function of its 0-based index; the result is the final outcome, the total
number of attempts made, and the backoff delays slept between consecutive
attempts.  `rem` is the number of retries still allowed (initially
`retries`); on a failure with retries left the delay is
`backoffMs * 2 ^ attempt`. -/
def runWithRetryAux {E A : Type} (fn : Nat → Except E A) (backoffMs : Nat) :
    Nat → Nat → Except E A × Nat × List Nat
  | attempt, 0 =>
    match fn attempt with
    | .ok a => (.ok a, attempt + 1, [])
    | .error e => (.error e, attempt + 1, [])
  | attempt, rem + 1 =>
    match fn attempt with
    | .ok a => (.ok a, attempt + 1, [])
    | .error _ =>
      let r := runWithRetryAux fn backoffMs (attempt + 1) rem
      (r.1, r.2.1, backoffMs * 2 ^ attempt :: r.2.2)

/-- `runWithRetry` from `scripts/push-mastercode-to-imweb.ts`. -/
def runWithRetry {E A : Type} (fn : Nat → Except E A)
    (retries backoffMs : Nat) : Except E A × Nat × List Nat :=
  runWithRetryAux fn backoffMs 0 retries

theorem runWithRetryAux_always_fails {E A : Type} (fn : Nat → Except E A)
    (e : Nat → E) (h : ∀ k, fn k = .error (e k)) (backoffMs : Nat) :
    ∀ (rem attempt : Nat),
      runWithRetryAux fn backoffMs attempt rem =
        (.error (e (attempt + rem)), attempt + rem + 1,
          (List.range' attempt rem).map fun k => backoffMs * 2 ^ k) := by
  intro rem
  induction rem with
  | zero =>
    intro attempt
    simp [runWithRetryAux, h attempt]
  | succ m ih =>
    intro attempt
    simp only [runWithRetryAux, h attempt]
    rw [ih (attempt + 1)]
    rw [List.range'_succ]
    simp only [List.map_cons]
    refine congrArg₂ Prod.mk ?_ (congrArg₂ Prod.mk ?_ rfl)
    · rw [show attempt + 1 + m = attempt + (m + 1) by omega]
    · rw [show attempt + 1 + m + 1 = attempt + (m + 1) + 1 by omega]

/-- C2: with an always-failing operation, `runWithRetry` makes exactly
`retries + 1` attempts in total, with no delay before the first attempt and
a delay of `backoff * 2^(k-1)` before the k-th retry (the k-th entry of the
delay list), then surfaces the final attempt's error; in particular with
retries=3, backoff=500ms it makes 4 attempts with delays 500, 1000, 2000. -/
theorem runWithRetry_always_fails {E A : Type} (fn : Nat → Except E A)
    (e : Nat → E) (h : ∀ k, fn k = .error (e k)) (retries backoffMs : Nat) :
    runWithRetry fn retries backoffMs =
      (.error (e retries), retries + 1,
        (List.range retries).map fun k => backoffMs * 2 ^ k) ∧
    runWithRetry fn 3 500 = (.error (e 3), 4, [500, 1000, 2000]) := by
  constructor
  · rw [runWithRetry, runWithRetryAux_always_fails fn e h backoffMs retries 0]
    rw [List.range_eq_range']
    simp
  · rw [runWithRetry, runWithRetryAux_always_fails fn e h 500 3 0]
    rfl

/-- Witness instantiating `runWithRetry_always_fails` concretely. -/
theorem runWithRetry_always_fails_witness :
    runWithRetry (fun _ => (Except.error 0 : Except Nat Nat)) 3 500 =
      (.error 0, 4, [500, 1000, 2000]) :=
  (runWithRetry_always_fails (fun _ => Except.error 0) (fun _ => 0)
    (fun _ => rfl) 3 500).2

/-! The rate limiter of the push script. -/

/-- `Math.ceil(1000 / eventsPerSecond)` for a positive integer rate. -/
def RateLimiter.minInterval (r : Nat) : Nat := (1000 + r - 1) / r

/-- One call to `RateLimiter.wait` on the state `nextAvailable = st` at
clock `now`: the caller starts at `waitUntil = max st now` (sleeping the
difference when positive) and the state advances to `waitUntil + minI`.
Returns (reserved start, new state). -/
def rateLimiterWait (minI st now : Nat) : Nat × Nat :=
  (max st now, max st now + minI)

/-- The reserved start times of a sequence of calls arriving at clocks
`nows`, threaded through the limiter state. -/
def reserveStarts (minI : Nat) : Nat → List Nat → List Nat
  | _, [] => []
  | st, now :: rest =>
    (rateLimiterWait minI st now).1 ::
      reserveStarts minI (rateLimiterWait minI st now).2 rest

/-- The start time the claim's formula
`max(now, lastReservedSlot) + minInterval` predicts (built from the claim's
words, for comparison against the code model). -/
def specClaimedStart (now lastSlot minI : Nat) : Nat :=
  max now lastSlot + minI

/-- Adjacent elements all at least `minI` apart. -/
def gapsOk (minI : Nat) : List Nat → Bool
  | a :: b :: t => decide (a + minI ≤ b) && gapsOk minI (b :: t)
  | _ => true

/-- C3 counterexample: rate 5/sec gives minInterval 200ms.  A limiter
created at clock 0 serves calls arriving at clocks 0 and 300: the code
starts them at 0 and 300 (the second caller arrives after the cursor has
passed, so it starts immediately), while the claim's formula
`max(now, lastReservedSlot) + minInterval` predicts 500 for the second
call, whether `lastReservedSlot` is read as the previous start (0) or as
the limiter's cursor (200). -/
theorem rate_limiter_counterexample :
    RateLimiter.minInterval 5 = 200 ∧
    reserveStarts (RateLimiter.minInterval 5) 0 [0, 300] = [0, 300] ∧
    specClaimedStart 300 0 (RateLimiter.minInterval 5) = 500 ∧
    specClaimedStart 300 200 (RateLimiter.minInterval 5) = 500 ∧
    (300 : Nat) ≠ 500 := by
  decide

theorem gapsOk_reserveStarts (minI : Nat) (nows : List Nat) :
    ∀ st : Nat, gapsOk minI (reserveStarts minI st nows) = true := by
  induction nows with
  | nil => intro st; rfl
  | cons n rest ih =>
    intro st
    cases rest with
    | nil => rfl
    | cons m rest' =>
      show gapsOk minI (max st n ::
        reserveStarts minI (max st n + minI) (m :: rest')) = true
      show gapsOk minI (max st n :: max (max st n + minI) m ::
        reserveStarts minI (max (max st n + minI) m + minI) rest') = true
      have hih := ih (max st n + minI)
      rw [show reserveStarts minI (max st n + minI) (m :: rest') =
        max (max st n + minI) m ::
          reserveStarts minI (max (max st n + minI) m + minI) rest' from rfl]
        at hih
      simp only [gapsOk, Bool.and_eq_true, decide_eq_true_eq]
      exact ⟨Nat.le_max_left _ _, by simpa [gapsOk] using hih⟩

/-- C3 (amended): a caller arriving at `now` against cursor `st` starts at
`max(st, now)` — i.e. `max(now, lastReservedStart + minInterval)` for the
second of two consecutive calls — not at `max(now, lastReservedSlot) +
minInterval`; the reserved slot advances by `minInterval = ceil(1000/R)`,
so any two consecutively reserved start times are at least `ceil(1000/R)`
apart, for every rate `R ≥ 1`, every initial cursor and every arrival
pattern. -/
theorem rate_limiter_spec :
    (∀ (minI st now1 now2 : Nat),
      reserveStarts minI st [now1, now2] =
        [max st now1, max (max st now1 + minI) now2]) ∧
    (∀ r : Nat, 1 ≤ r →
      (1 ≤ RateLimiter.minInterval r ∧
        1000 ≤ RateLimiter.minInterval r * r ∧
        ∀ k : Nat, 1000 ≤ k * r → RateLimiter.minInterval r ≤ k) ∧
      ∀ (st : Nat) (nows : List Nat),
        gapsOk (RateLimiter.minInterval r)
          (reserveStarts (RateLimiter.minInterval r) st nows) = true) := by
  constructor
  · intro minI st now1 now2
    rfl
  · intro r hr
    refine ⟨⟨?_, ?_, ?_⟩, fun st nows => gapsOk_reserveStarts _ nows st⟩
    · rw [RateLimiter.minInterval, Nat.one_le_div_iff hr]
      omega
    · have hmod : (1000 + r - 1) % r < r := Nat.mod_lt _ hr
      have hdm := Nat.div_add_mod (1000 + r - 1) r
      have hcomm : r * ((1000 + r - 1) / r) = (1000 + r - 1) / r * r :=
        Nat.mul_comm _ _
      rw [RateLimiter.minInterval]
      omega
    · intro k hk
      rw [RateLimiter.minInterval, Nat.div_le_iff_le_mul_add_pred hr]
      calc 1000 + r - 1 ≤ k * r + (r - 1) := by omega
        _ = r * k + (r - 1) := by rw [Nat.mul_comm]

/-- Witness instantiating `rate_limiter_spec` at rate 5 and a concrete
arrival pattern. -/
theorem rate_limiter_spec_witness :
    gapsOk (RateLimiter.minInterval 5)
      (reserveStarts (RateLimiter.minInterval 5) 0 [0, 300, 310, 900]) =
      true :=
  (rate_limiter_spec.2 5 (by decide)).2 0 [0, 300, 310, 900]

/-! The push batch of `scripts/push-mastercode-to-imweb.ts`. -/

inductive SyncDirection where
  | PUSH
  | PULL
deriving DecidableEq

inductive SourceOfTruth where
  | IMWEB
  | MASTER
deriving DecidableEq

/-- An `ExternalProductMap` row for the IMWEB system, with its product's
master code joined in. -/
structure PushMap where
  external_id : List Nat
  master_code : List Nat
  last_sync_direction : Option SyncDirection
  last_synced_at : Option Nat
  source_of_truth : SourceOfTruth
deriving DecidableEq

/-- The `onlyUnsynced` candidate filter of the push batch (the OR of the
WHERE clause over IMWEB mappings): direction null, direction ≠ PUSH, or
never synced. -/
def onlyUnsyncedSelectable (m : PushMap) : Bool :=
  m.last_sync_direction.isNone ||
    !(m.last_sync_direction == some .PUSH) ||
    m.last_synced_at.isNone

/-- One record of the append-only JSONL results log (the timestamp and
product id are not modelled). -/
structure PushResultLine where
  externalId : List Nat
  masterCode : List Nat
  ok : Bool
deriving DecidableEq

/-- `processSingle` for one candidate: an empty master code fails the item
(error record, no mutation); dry-run appends a success record without
calling the client or mutating; otherwise the client call runs under
`runWithRetry`, and on success the mapping's idempotency fields are set
(direction PUSH, synced_at now, source of truth MASTER) before a success
record is appended, while on exhausted retries an error record is appended
and the mapping is left untouched. -/
def processSingle (m : PushMap) (dryRun : Bool)
    (attempts : Nat → Except Unit Unit) (retries backoffMs : Nat)
    (now : Nat) : PushMap × PushResultLine :=
  if m.master_code.isEmpty then (m, ⟨m.external_id, m.master_code, false⟩)
  else if dryRun then (m, ⟨m.external_id, m.master_code, true⟩)
  else
    match (runWithRetry attempts retries backoffMs).1 with
    | .ok _ =>
      ({ m with
          last_sync_direction := some .PUSH
          last_synced_at := some now
          source_of_truth := .MASTER },
        ⟨m.external_id, m.master_code, true⟩)
    | .error _ => (m, ⟨m.external_id, m.master_code, false⟩)

/-- C1: for a selectable candidate with a non-empty master code on a real
(non-dry-run) run: if the retried client call succeeds, the mapping comes
back with last_sync_direction=PUSH, last_synced_at=now and
source_of_truth=MASTER and a success record, and it is no longer
selectable by a later onlyUnsynced run; if the call exhausts its retries,
an error record is appended and the mapping is returned untouched, so it
remains selectable by a future onlyUnsynced run. -/
theorem processSingle_spec (m : PushMap) (attempts : Nat → Except Unit Unit)
    (retries backoffMs now : Nat) (hmc : ¬m.master_code.isEmpty = true)
    (hsel : onlyUnsyncedSelectable m = true) :
    ((∃ u, (runWithRetry attempts retries backoffMs).1 = .ok u) →
      ∃ m', processSingle m false attempts retries backoffMs now =
          (m', ⟨m.external_id, m.master_code, true⟩) ∧
        m'.last_sync_direction = some .PUSH ∧
        m'.last_synced_at = some now ∧
        m'.source_of_truth = .MASTER ∧
        onlyUnsyncedSelectable m' = false) ∧
    (∀ e, (runWithRetry attempts retries backoffMs).1 = .error e →
      processSingle m false attempts retries backoffMs now =
        (m, ⟨m.external_id, m.master_code, false⟩) ∧
      onlyUnsyncedSelectable m = true) := by
  constructor
  · rintro ⟨u, hu⟩
    have hps : processSingle m false attempts retries backoffMs now =
        ({ m with
            last_sync_direction := some .PUSH
            last_synced_at := some now
            source_of_truth := .MASTER },
          ⟨m.external_id, m.master_code, true⟩) := by
      simp only [processSingle, hu]
      rw [if_neg hmc]
      rfl
    exact ⟨_, hps, rfl, rfl, rfl, rfl⟩
  · intro e he
    refine ⟨?_, hsel⟩
    simp only [processSingle, he]
    rw [if_neg hmc]
    rfl

/-- Witness instantiating `processSingle_spec` on a fresh mapping, with an
always-succeeding and an always-failing client. -/
theorem processSingle_spec_witness :
    (∃ m', processSingle
        ⟨codes "E1", codes "CATE9-00001", none, none, .IMWEB⟩ false
        (fun _ => Except.ok ()) 3 500 77 =
          (m', ⟨codes "E1", codes "CATE9-00001", true⟩) ∧
      m'.last_sync_direction = some .PUSH ∧
      m'.last_synced_at = some 77 ∧
      m'.source_of_truth = .MASTER ∧
      onlyUnsyncedSelectable m' = false) ∧
    (processSingle ⟨codes "E1", codes "CATE9-00001", none, none, .IMWEB⟩
        false (fun _ => Except.error ()) 3 500 77 =
        (⟨codes "E1", codes "CATE9-00001", none, none, .IMWEB⟩,
          ⟨codes "E1", codes "CATE9-00001", false⟩) ∧
      onlyUnsyncedSelectable
        ⟨codes "E1", codes "CATE9-00001", none, none, .IMWEB⟩ = true) :=
  ⟨(processSingle_spec ⟨codes "E1", codes "CATE9-00001", none, none, .IMWEB⟩
      (fun _ => Except.ok ()) 3 500 77 (by decide) (by decide)).1
      ⟨(), by decide⟩,
   (processSingle_spec ⟨codes "E1", codes "CATE9-00001", none, none, .IMWEB⟩
      (fun _ => Except.error ()) 3 500 77 (by decide) (by decide)).2
      () (by decide)⟩
